import Mathlib

/-!
# Seg7Display: a shallow embedding of the seven-segment display driver

The development follows `Seg7Display.cpp`, `Seg7Display.h` and `ascii-tables.h`.

Modelling conventions.

* A `char` is an `Int` (the comparisons in `asciiTo7seg` are carried out after the
  integer promotion of the character, so the same definition covers a signed and an
  unsigned `char`).  A byte of a glyph table is a `Nat`.
* A C array that the code indexes with a computed index is a total map from the index
  to the value stored there.  Indices below the declared length are the array cells;
  an index at or past the declared length stands for the memory that follows the
  array, so a store or a load the code performs past the end stays visible.  That
  memory is kept apart from the other members, whereas in the object it overlays them:
  `nextToggle[8]` is the bytes of `isOn[0..3]`, and the offsets past the buffer and
  its unused pointer `m_disp.next` are `m_ascii_table` and the scroll records.  The
  maps agree with the object on the indices `0..7` and on `upLo[8]`, a byte of
  `m_disp.next`.  The general statements about a refresh or about a run of operations
  that depend on the blink slots or on the scroll records are therefore made for
  segment counts of at most 8, where `refresh` and `writeOneSegment` access no blink
  slot and no cell past index 7.
* A glyph table is the list of bytes found at the table pointer; a load past the end
  of the list yields `0`, and the null pointer is the empty list.
* `millis()` is an argument of every operation that reads the clock; the clock is
  taken not to advance during a single call.  `unsigned long` arithmetic is reduced
  modulo `2 ^ 32`, `uint8_t` arithmetic modulo `2 ^ 8`.
* The bus is an output trace of `BusEvent`s.
* `asciiTo7segChecked` repeats `asciiTo7seg` with every load bounds-checked (`none`
  for a load outside its array); it is used to state that the loads stay in bounds.
-/

set_option linter.dupNamespace false

namespace Seg7Display

/-! ## Return codes and display selectors (`Seg7Display.h`) -/

def ALL_OK : Nat := 0
def ERROR_CODE_INVALID_SPI_MODE : Nat := 1
def ERROR_CODE_INVALID_SS_PIN : Nat := 2
def ERROR_CODE_TO_FEW_SEGMENTS : Nat := 3
def ERROR_CODE_OUT_OF_RANGE : Nat := 4

def DISPLAY_UPPER : Nat := 0x01
def DISPLAY_LOWER : Nat := 0x02

/-! ## Glyph tables (`ascii-tables.h`) -/

def SYM_A : Nat := 0x80
def SYM_B : Nat := 0x40
def SYM_C : Nat := 0x20
def SYM_D : Nat := 0x10
def SYM_E : Nat := 0x08
def SYM_F : Nat := 0x04
def SYM_G : Nat := 0x02
def SYM_DP : Nat := 0x01

def SYM_BAR_L : Nat := SYM_E ||| SYM_F
def SYM_BAR_R : Nat := SYM_B ||| SYM_C
def SYM_BAR_RT : Nat := SYM_BAR_R ||| SYM_A
def SYM_BAR_LT : Nat := SYM_BAR_L ||| SYM_A
def SYM_BAR_RB : Nat := SYM_BAR_R ||| SYM_D
def SYM_BAR_LB : Nat := SYM_BAR_L ||| SYM_D

/-- The 32 special symbols, indexed by the control codes `0x00 .. 0x1F`. -/
def SPECIAL_CHARS : List Nat :=
  [ 0x00, SYM_A, SYM_B, SYM_C, SYM_D, SYM_E, SYM_F, SYM_G, SYM_DP,
    SYM_BAR_L, SYM_BAR_R, SYM_BAR_RT, SYM_BAR_LT, SYM_BAR_RB, SYM_BAR_LB,
    0x00, 0x00, 0x00, 0x00, 0x00, 0x00, 0x00, 0x00, 0x00,
    0x00, 0x00, 0x00, 0x00, 0x00, 0x00, 0x00, 0x00 ]

/-- Glyph table for the digits: first code, last code, then the patterns of 0 .. 9. -/
def ASCII_NUM_TAB : List Nat :=
  [ 0x30, 0x39,
    0xFC, 0x60, 0xDA, 0xF2, 0x66, 0xB6, 0xBE, 0xE0, 0xFE, 0xE6 ]

/-- Glyph table for the hexadecimal digits, codes `0x30 .. 0x46`. -/
def ASCII_HEX_TAB : List Nat :=
  [ 0x30, 0x46,
    0xFC, 0x60, 0xDA, 0xF2, 0x66, 0xB6, 0xBE, 0xE0, 0xFE, 0xE6,
    0x00, 0x00, 0x00, 0x00, 0x00, 0x00, 0x00,
    0xEE, 0x3E, 0x9C, 0x7A, 0x9E, 0x8E ]

/-- Glyph table for the printable characters, codes `0x20 .. 0x7A`. -/
def ASCII_FULL_TAB : List Nat :=
  [ 0x20, 0x7A,
    -- codes 0x20 .. 0x2F: space and punctuation
    0x00, 0x41, 0x44, 0x00, 0x00, 0x00, 0x00, 0x40, 0x9C, 0xF0, 0x00, 0x00, 0x01, 0x02, 0x01, 0x00,
    -- 0 1 2 3 4 5 6 7 8 9
    0xFC, 0x60, 0xDA, 0xF2, 0x66, 0xB6, 0xBE, 0xE0, 0xFE, 0xE6,
    -- codes 0x3A .. 0x40: punctuation
    0x00, 0x00, 0x00, 0x12, 0x00, 0xCA, 0x00,
    -- A B C D E F G H I J K L M
    0xEE, 0x3E, 0x9C, 0x7A, 0x9E, 0x8E, 0xBC, 0x6E, 0x60, 0x78, 0x00, 0x1C, 0x1C,
    -- N O P Q R S T U V W X Y Z
    0x2A, 0xFC, 0xCE, 0x00, 0x0A, 0xB6, 0x1E, 0x7C, 0x00, 0x3C, 0x00, 0x76, 0x00,
    -- codes 0x5B .. 0x60: brackets, underscore
    0x00, 0x00, 0x00, 0x00, 0x10, 0x00,
    -- a b c d e f g h i j k l m
    0xFA, 0x3E, 0x1A, 0x7A, 0xDE, 0x8E, 0xF6, 0x2E, 0x20, 0x78, 0x00, 0x1C, 0x0A,
    -- n o p q r s t u v w x y z
    0x2A, 0x3A, 0xCE, 0xEA, 0x0A, 0xB6, 0x1E, 0x38, 0x00, 0x00, 0x00, 0x76, 0x00 ]

/-- The byte at offset `i` from a table pointer (`*(table + i)`). -/
def peek (table : List Nat) (i : Int) : Nat :=
  if 0 ≤ i then table.getD i.toNat 0 else 0

/-! ## Data model (`Seg7Display.h`) -/

/-- Arduino `String::charAt`: the character at `i`, or `0` past the end of the text. -/
def charAt (txt : List Int) (i : Nat) : Int :=
  txt.getD i 0

/-- Blink information, `blink_t` (declared length of every array: 8). -/
structure blink_t where
  on_ : Nat → Nat
  off : Nat → Nat
  nextToggle : Nat → Nat
  isOn : Nat → Nat

/-- Display text, `disp_t`: the union of `upLo[8]` with `upper[4]` followed by
`lower[4]`, as a map from the offset within `upLo`. -/
structure disp_t where
  upLo : Nat → Int

/-- Offset of `upper[4]` within `upLo`. -/
def upper : Nat := 0

/-- Offset of `lower[4]` within `upLo`. -/
def lower : Nat := 4

/-- Scroll information of one row, `scroll_t`. -/
structure scroll_t where
  time : Nat
  text : List Int
  delay : Nat
  toLeft : Nat
  marker : Nat

/-- The member variables of a `Seg7Display` object. -/
structure State where
  m_slaveSelectPin : Int
  m_segmentSize : Nat
  m_disp : disp_t
  m_ascii_table : List Nat
  m_scrollUpper : scroll_t
  m_scrollLower : scroll_t
  m_dps : Nat
  m_blink : blink_t

def LOW : Nat := 0
def HIGH : Nat := 1

/-- What the driver does on the pins and on the SPI bus. -/
inductive BusEvent where
  | digitalWrite (pin : Int) (level : Nat)
  | transfer16 (data : Nat)
  deriving DecidableEq, Repr

/-- The words handed to `SPI.transfer16`, in order. -/
def transfers : List BusEvent → List Nat
  | [] => []
  | BusEvent.transfer16 w :: rest => w :: transfers rest
  | BusEvent.digitalWrite _ _ :: rest => transfers rest

/-- One framed transfer: slave select low, the 16-bit word, slave select high. -/
def frame (pin : Int) (data : Nat) : List BusEvent :=
  [BusEvent.digitalWrite pin LOW, BusEvent.transfer16 data, BusEvent.digitalWrite pin HIGH]

/-! ## Operations (`Seg7Display.cpp`) -/

/-- The constructor, run on the storage `raw` of the object; members it does not
assign keep what the storage holds.  The two `next` pointers, which no operation
reads, are left out of the state. -/
def Seg7Display (raw : State) : State :=
  let s := (List.range 8).foldl
    (fun (s : State) (i : Nat) =>
      { s with
        m_disp := { upLo := Function.update s.m_disp.upLo i 32 }
        m_blink := { s.m_blink with
          nextToggle := Function.update s.m_blink.nextToggle i 0
          isOn := Function.update s.m_blink.isOn i 1 } })
    raw
  { s with
    m_ascii_table := []
    m_segmentSize := 1
    m_scrollUpper := { s.m_scrollUpper with delay := 0 }
    m_scrollLower := { s.m_scrollLower with delay := 0 }
    m_dps := 0
    m_slaveSelectPin := 10 }

/-- Sets the slave-select pin and the glyph table (`Seg7Display::begin`); the set-up
of the SPI peripheral is left out. -/
def begin (s : State) (pin : Nat) (table : List Nat) : Nat × State :=
  if pin > 10 then
    (ERROR_CODE_INVALID_SS_PIN, s)
  else
    (ALL_OK, { s with m_slaveSelectPin := pin, m_ascii_table := table })

/-- Sets the number of digits (`Seg7Display::setSegmentsArraySize`). -/
def setSegmentsArraySize (s : State) (size : Nat) : Nat × State :=
  if size > 0 then
    (ALL_OK, { s with m_segmentSize := size })
  else
    (ERROR_CODE_TO_FEW_SEGMENTS, s)

/-- Copies a text to the `len` cells at offset `buf` (`Seg7Display::helperWrite`):
the text is cut to `len` characters, the copy loop stores character `x` at
`buf + x`, and the padding loop `while (x++ < len) *(buf+x) = 32` runs for the
values `txt.length .. len - 1` of `x` before the increment and stores at the
incremented index. -/
def helperWrite (txt : List Int) (upLo : Nat → Int) (buf : Nat) (len : Nat) : Nat → Int :=
  let txt := if txt.length > len then txt.take len else txt
  let m := (List.range txt.length).foldl
    (fun (m : Nat → Int) (x : Nat) => Function.update m (buf + x) (charAt txt x)) upLo
  (List.range' txt.length (len - txt.length)).foldl
    (fun (m : Nat → Int) (x : Nat) => Function.update m (buf + (x + 1)) 32) m

def writeSegments (s : State) (txt : List Int) : State :=
  { s with m_disp := { upLo := helperWrite txt s.m_disp.upLo 0 8 } }

def writeUpper (s : State) (txt : List Int) : State :=
  { s with m_disp := { upLo := helperWrite txt s.m_disp.upLo upper 4 } }

def writeLower (s : State) (txt : List Int) : State :=
  { s with m_disp := { upLo := helperWrite txt s.m_disp.upLo lower 4 } }

/-- Decoding of one character through the loaded glyph table
(`Seg7Display::asciiTo7seg`). -/
def asciiTo7seg (m_ascii_table : List Nat) (ch : Int) : Nat :=
  let start : Int := peek m_ascii_table 0
  let end_ : Int := peek m_ascii_table 1
  if ch > start ∧ ch ≤ end_ then
    peek m_ascii_table (ch - (start - 2))
  else if ch ≥ 0 ∧ ch < 32 then
    peek SPECIAL_CHARS ch
  else
    0

/-- The byte at offset `i` from the start of an array whose contents are `table`, or
`none` when the offset lies outside the array. -/
def peekChecked (table : List Nat) (i : Int) : Option Nat :=
  if 0 ≤ i then table[i.toNat]? else none

/-- The lookup `Seg7Display::asciiTo7seg` with every load bounds-checked: the two
header loads, the load from the glyph table and the load from `SPECIAL_CHARS`.  The
result is `none` as soon as one load the code performs lies outside its array. -/
def asciiTo7segChecked (m_ascii_table : List Nat) (ch : Int) : Option Nat :=
  (peekChecked m_ascii_table 0).bind fun start =>
  (peekChecked m_ascii_table 1).bind fun end_ =>
  if ch > (start : Int) ∧ ch ≤ (end_ : Int) then
    peekChecked m_ascii_table (ch - ((start : Int) - 2))
  else if ch ≥ 0 ∧ ch < 32 then
    peekChecked SPECIAL_CHARS ch
  else
    some 0

/-- One scroll step of a row whose cells start at offset `disp`
(`Seg7Display::helperScroll`). -/
def helperScroll (scroll : scroll_t) (upLo : Nat → Int) (disp : Nat) (now : Nat) :
    scroll_t × (Nat → Int) :=
  if (scroll.time + scroll.delay) % 2 ^ 32 < now then
    if scroll.toLeft ≠ 0 then
      let m := (List.range 3).foldl
        (fun (m : Nat → Int) (x : Nat) => Function.update m (disp + x) (m (disp + x + 1))) upLo
      let m := Function.update m (disp + 3) (charAt scroll.text scroll.marker)
      let marker :=
        if scroll.text.length = scroll.marker + 1 then 0 else (scroll.marker + 1) % 2 ^ 8
      ({ scroll with marker := marker, time := now }, m)
    else
      let m := [3, 2, 1].foldl
        (fun (m : Nat → Int) (x : Nat) => Function.update m (disp + x) (m (disp + x - 1))) upLo
      let m := Function.update m (disp + 0) (charAt scroll.text scroll.marker)
      let marker :=
        if scroll.marker = 0 then (scroll.text.length + (2 ^ 8 - 1)) % 2 ^ 8 else scroll.marker - 1
      ({ scroll with marker := marker, time := now }, m)
  else
    (scroll, upLo)

/-- The body of the digit loop of `refresh` for digit `i`; `dp` is the helper
variable of the decimal points and `out` the bus trace so far. -/
def refreshDigit (thisTime : Nat) (acc : State × Nat × List BusEvent) (i : Nat) :
    State × Nat × List BusEvent :=
  let s := acc.1
  let dp := acc.2.1
  let out := acc.2.2
  let s :=
    if s.m_blink.nextToggle i ≠ 0 ∧ s.m_blink.nextToggle i < thisTime then
      let s := { s with m_blink := { s.m_blink with
        isOn := Function.update s.m_blink.isOn i (if s.m_blink.isOn i ≠ 0 then 0 else 1) } }
      if s.m_blink.isOn i ≠ 0 then
        { s with m_blink := { s.m_blink with
          nextToggle := Function.update s.m_blink.nextToggle i
            ((s.m_blink.on_ i + thisTime) % 2 ^ 32) } }
      else
        { s with m_blink := { s.m_blink with
          nextToggle := Function.update s.m_blink.nextToggle i
            ((s.m_blink.off i + thisTime) % 2 ^ 32) } }
    else s
  let out :=
    if s.m_blink.isOn i ≠ 0 then
      let spi_packet := (asciiTo7seg s.m_ascii_table (s.m_disp.upLo i) <<< 8) ||| (0x80 >>> i)
      let spi_packet := spi_packet ||| (if (s.m_dps &&& dp) ≠ 0 then 0x0100 else 0x0000)
      out ++ [BusEvent.digitalWrite s.m_slaveSelectPin LOW,
              BusEvent.transfer16 spi_packet,
              BusEvent.digitalWrite s.m_slaveSelectPin HIGH]
    else
      out ++ [BusEvent.digitalWrite s.m_slaveSelectPin LOW,
              BusEvent.transfer16 (0x0000 + (0x80 >>> i)),
              BusEvent.digitalWrite s.m_slaveSelectPin HIGH]
  (s, dp >>> 1, out)

/-- The scroll part of `refresh`: a row whose scroll delay is not zero goes through
`helperScroll`, the upper row first. -/
def refreshScroll (s : State) (now : Nat) : State :=
  let s :=
    if s.m_scrollUpper.delay ≠ 0 then
      let r := helperScroll s.m_scrollUpper s.m_disp.upLo upper now
      { s with m_scrollUpper := r.1, m_disp := { upLo := r.2 } }
    else s
  if s.m_scrollLower.delay ≠ 0 then
    let r := helperScroll s.m_scrollLower s.m_disp.upLo lower now
    { s with m_scrollLower := r.1, m_disp := { upLo := r.2 } }
  else s

/-- One refresh at clock reading `now` (`Seg7Display::refresh`): the new state and
the bus trace.  The scroll part comes first, then the loop over the digits
`0 .. m_segmentSize - 1` with `dp` starting at `0x80`. -/
def refresh (s : State) (now : Nat) : State × List BusEvent :=
  let thisTime := now
  let s := refreshScroll s now
  let r := (List.range s.m_segmentSize).foldl (refreshDigit thisTime) (s, 0x80, [])
  (r.1, r.2.2)

/-- Writes one character to digit `seg`, counted from 1
(`Seg7Display::writeOneSegment`): return code, new state, bus trace. -/
def writeOneSegment (s : State) (seg : Nat) (ch : Int) (now : Nat) :
    Nat × State × List BusEvent :=
  if seg > s.m_segmentSize ∨ seg = 0 then
    (ERROR_CODE_OUT_OF_RANGE, s, [])
  else
    let s := { s with m_disp := { upLo := Function.update s.m_disp.upLo (seg - 1) ch } }
    let r := refresh s now
    (ALL_OK, r.1, r.2)

/-- Reads one character of the display buffer (`Seg7Display::readOneSegment`):
return code and the value left in the out-parameter `ch`. -/
def readOneSegment (s : State) (seg : Nat) : Nat × Int :=
  if seg > 8 then
    (ERROR_CODE_OUT_OF_RANGE, 0)
  else
    (ALL_OK, s.m_disp.upLo seg)

/-- Sets up a scroll of the row at offset `disp` (`Seg7Display::scrollHelper`). -/
def scrollHelper (str : List Int) (upLo : Nat → Int) (disp : Nat) (t : Nat) (left : Nat)
    (now : Nat) : scroll_t × (Nat → Int) :=
  let m := (List.range 4).foldl
    (fun (m : Nat → Int) (x : Nat) => Function.update m (disp + x) 32) upLo
  ({ text := str
     delay := t
     time := now
     toLeft := left
     marker := if left ≠ 0 then 0 else (str.length + (2 ^ 8 - 1)) % 2 ^ 8 }, m)

def scrollUpperEx (s : State) (str : List Int) (t : Nat) (left : Nat) (now : Nat) : State :=
  let r := scrollHelper str s.m_disp.upLo upper t left now
  { s with m_scrollUpper := r.1, m_disp := { upLo := r.2 } }

def scrollLowerEx (s : State) (str : List Int) (t : Nat) (left : Nat) (now : Nat) : State :=
  let r := scrollHelper str s.m_disp.upLo lower t left now
  { s with m_scrollLower := r.1, m_disp := { upLo := r.2 } }

def setDecimalPoints (s : State) (points : Nat) : State :=
  { s with m_dps := points }

/-- Starts blinking the digits selected by `digit` (`Seg7Display::setBlink`); `t` is
the clock reading taken after the delay. -/
def setBlink (s : State) (digit : Nat) (on_ : Nat) (off : Nat) (t : Nat) : State :=
  (List.range 8).foldl
    (fun (s : State) (i : Nat) =>
      if ((0x80 >>> i) &&& digit) ≠ 0 then
        { s with m_blink :=
          { on_ := Function.update s.m_blink.on_ i on_
            off := Function.update s.m_blink.off i off
            nextToggle := Function.update s.m_blink.nextToggle i t
            isOn := Function.update s.m_blink.isOn i 0 } }
      else s)
    s

def stopBlink (s : State) : State :=
  (List.range 8).foldl
    (fun (s : State) (i : Nat) =>
      { s with m_blink := { s.m_blink with
        nextToggle := Function.update s.m_blink.nextToggle i 0
        isOn := Function.update s.m_blink.isOn i 1 } })
    s

def stopScroll (s : State) (displays : Nat) : State :=
  let s :=
    if (displays &&& DISPLAY_LOWER) ≠ 0 then
      { s with m_scrollLower := { s.m_scrollLower with delay := 0 } }
    else s
  if (displays &&& DISPLAY_UPPER) ≠ 0 then
    { s with m_scrollUpper := { s.m_scrollUpper with delay := 0 } }
  else s

/-- Arduino `String(const char*)` on the text buffer: the characters from offset `off`
up to the first NUL, at most `fuel` of them. -/
def cString (m : Nat → Int) (off : Nat) : Nat → List Int
  | 0 => []
  | fuel + 1 => if m off = 0 then [] else m off :: cString m (off + 1) fuel

/-- The longest text a `String` of the 16-bit target holds. -/
def maxStringLength : Nat := 65535

/-- Scrolls the text shown on the upper row (`Seg7Display::scrollUpper`): the
`String` built at `m_disp.upper` is cut to four characters. -/
def scrollUpper (s : State) (t : Nat) (left : Nat) (now : Nat) : State :=
  let str := (cString s.m_disp.upLo upper maxStringLength).take 4
  scrollUpperEx s str t left now

/-- Scrolls the text shown on the lower row (`Seg7Display::scrollLower`): the call
passes `m_disp.lower` itself, so the text is the `String` built at `m_disp.lower`,
not the copy cut to four characters. -/
def scrollLower (s : State) (t : Nat) (left : Nat) (now : Nat) : State :=
  scrollLowerEx s (cString s.m_disp.upLo lower maxStringLength) t left now

/-! ## Sequences of public operations -/

/-- One call of a public member function with its arguments; an operation that reads
the clock carries the clock reading. -/
inductive Op where
  | begin (pin : Nat) (table : List Nat)
  | setSegmentsArraySize (size : Nat)
  | writeSegments (txt : List Int)
  | writeUpper (txt : List Int)
  | writeLower (txt : List Int)
  | writeOneSegment (seg : Nat) (ch : Int) (now : Nat)
  | readOneSegment (seg : Nat)
  | refresh (now : Nat)
  | scrollLowerEx (str : List Int) (t : Nat) (left : Nat) (now : Nat)
  | scrollLower (t : Nat) (left : Nat) (now : Nat)
  | scrollUpperEx (str : List Int) (t : Nat) (left : Nat) (now : Nat)
  | scrollUpper (t : Nat) (left : Nat) (now : Nat)
  | setDecimalPoints (points : Nat)
  | setBlink (digit : Nat) (on_ : Nat) (off : Nat) (t : Nat)
  | stopBlink
  | stopScroll (displays : Nat)

/-- The state an operation leaves. -/
def Op.apply (s : State) : Op → State
  | Op.begin pin table => (Seg7Display.begin s pin table).2
  | Op.setSegmentsArraySize size => (Seg7Display.setSegmentsArraySize s size).2
  | Op.writeSegments txt => Seg7Display.writeSegments s txt
  | Op.writeUpper txt => Seg7Display.writeUpper s txt
  | Op.writeLower txt => Seg7Display.writeLower s txt
  | Op.writeOneSegment seg ch now => (Seg7Display.writeOneSegment s seg ch now).2.1
  | Op.readOneSegment _ => s
  | Op.refresh now => (Seg7Display.refresh s now).1
  | Op.scrollLowerEx str t left now => Seg7Display.scrollLowerEx s str t left now
  | Op.scrollLower t left now => Seg7Display.scrollLower s t left now
  | Op.scrollUpperEx str t left now => Seg7Display.scrollUpperEx s str t left now
  | Op.scrollUpper t left now => Seg7Display.scrollUpper s t left now
  | Op.setDecimalPoints points => Seg7Display.setDecimalPoints s points
  | Op.setBlink digit on_ off t => Seg7Display.setBlink s digit on_ off t
  | Op.stopBlink => Seg7Display.stopBlink s
  | Op.stopScroll displays => Seg7Display.stopScroll s displays

/-- The state after a sequence of operations, first operation first. -/
def run (s : State) (ops : List Op) : State :=
  ops.foldl Op.apply s

/-- Whether the operation is a call of `setBlink`. -/
def Op.isSetBlink : Op → Bool
  | Op.setBlink _ _ _ _ => true
  | _ => false

/-- The refreshes at the clock readings `ts` each advance a scroll of delay `delay`
whose last step was taken at `last`: the delay is not zero, so `refresh` calls
`helperScroll`, and each reading passes the test `(time + delay) < millis()` of
`helperScroll` against the time of the step before. -/
def advancing (delay : Nat) : Nat → List Nat → Prop
  | _, [] => True
  | last, t :: ts => delay ≠ 0 ∧ (last + delay) % 2 ^ 32 < t ∧ advancing delay t ts

/-! ## Concrete objects used in the examples -/

/-- Zero-filled storage, as of an object with static storage duration. -/
def zeroStorage : State where
  m_slaveSelectPin := 0
  m_segmentSize := 0
  m_disp := { upLo := fun _ => 0 }
  m_ascii_table := []
  m_scrollUpper := { time := 0, text := [], delay := 0, toLeft := 0, marker := 0 }
  m_scrollLower := { time := 0, text := [], delay := 0, toLeft := 0, marker := 0 }
  m_dps := 0
  m_blink := { on_ := fun _ => 0, off := fun _ => 0, nextToggle := fun _ => 0, isOn := fun _ => 0 }

/-- The text of Example 1 of `Seg7Display.h`: O c t o p a r t. -/
def Octopart : List Int := [0x4F, 0x63, 0x74, 0x6F, 0x70, 0x61, 0x72, 0x74]

/-- Example 1 of `Seg7Display.h`, with the documented `setSegmentsArraySize`. -/
def example1 (raw : State) : State :=
  writeSegments (setSegmentsArraySize (begin (Seg7Display raw) 10 ASCII_FULL_TAB).2 8).2 Octopart

/-- Example 1 followed by a left scroll of the text A B on the upper row, started at
clock reading 0 with delay 100. -/
def scrollingUpper : State :=
  scrollUpperEx (example1 zeroStorage) [0x41, 0x42] 100 1 0

/-- Example 1 followed by `setSegmentsArraySize(10)`. -/
def tenSegments : State :=
  (setSegmentsArraySize (example1 zeroStorage) 10).2

/-- The ten-digit display after `writeOneSegment(9, O)` at clock reading 0. -/
def ninthWritten : State :=
  (writeOneSegment tenSegments 9 0x4F 0).2.1

/-- Example 1 followed by `setBlink(0x80, 500, 200)` reading the clock at 100. -/
def blinkingFirst : State :=
  setBlink (example1 zeroStorage) 0x80 500 200 100

/-- Example 1 followed by a left scroll of 300 letters A on the upper row, started at
clock reading 0 with delay 100. -/
def scrollingLong : State :=
  scrollUpperEx (example1 zeroStorage) (List.replicate 300 0x41) 100 1 0

/-- The first `n` of the refreshes at the clock readings 101, 202, 303, ... -/
def advances (n : Nat) : List Op :=
  (List.range n).map (fun k => Op.refresh (101 * (k + 1)))

/-- A left scroll of a text of 300 letters A whose marker stands at 255. -/
def longScroll : scroll_t :=
  { time := 0, text := List.replicate 300 0x41, delay := 100, toLeft := 1, marker := 255 }

/-- Example 1 followed by a right scroll of 257 letters A on the upper row, started
at clock reading 0 with delay 100. -/
def scrollingRight : State :=
  scrollUpperEx (example1 zeroStorage) (List.replicate 257 0x41) 100 0 0

/-- The text A B C D. -/
def ABCD : List Int := [0x41, 0x42, 0x43, 0x44]

/-- The calls of Example 1 followed by `setBlink(0x80, 500, 200)` reading the clock
at 100, a refresh at 150 and a refresh at `2 ^ 32 - 200`. -/
def blinkWrapOps : List Op :=
  [Op.begin 10 ASCII_FULL_TAB, Op.setSegmentsArraySize 8, Op.writeSegments Octopart,
   Op.setBlink 0x80 500 200 100, Op.refresh 150, Op.refresh 4294967096]

/-- Inside the half-open range the code tests, the lookup reads the table. -/
theorem asciiTo7seg_inside (table : List Nat) (ch : Int)
    (h1 : (peek table 0 : Int) < ch) (h2 : ch ≤ (peek table 1 : Int)) :
    asciiTo7seg table ch = peek table (ch - ((peek table 0 : Int) - 2)) := by
  simp only [asciiTo7seg]
  rw [if_pos ⟨h1, h2⟩]

/-- Outside the range the code tests, the lookup falls through to the special
symbols and then to the blank pattern. -/
theorem asciiTo7seg_outside (table : List Nat) (ch : Int)
    (h : ¬ ((peek table 0 : Int) < ch ∧ ch ≤ (peek table 1 : Int))) :
    asciiTo7seg table ch = if 0 ≤ ch ∧ ch < 32 then peek SPECIAL_CHARS ch else 0 := by
  simp only [asciiTo7seg]
  rw [if_neg h]

/-! ## Auxiliary lemmas: stores into the display buffer -/

/-- A copy loop over `x = 0 .. n - 1` storing `f x` at `buf + x`, read at `j`. -/
theorem foldl_update_range {α : Type} (f : Nat → α) (buf : Nat) (m0 : Nat → α) (n j : Nat) :
    (List.range n).foldl (fun (m : Nat → α) (x : Nat) => Function.update m (buf + x) (f x)) m0 j
      = if buf ≤ j ∧ j < buf + n then f (j - buf) else m0 j := by
  induction n with
  | zero =>
    have : ¬ (buf ≤ j ∧ j < buf + 0) := by omega
    rw [if_neg this]
    rfl
  | succ n ih =>
    rw [List.range_succ, List.foldl_append]
    simp only [List.foldl_cons, List.foldl_nil]
    by_cases hj : j = buf + n
    · subst hj
      have : buf ≤ buf + n ∧ buf + n < buf + (n + 1) := by omega
      simp [this]
    · rw [Function.update_noteq hj, ih]
      by_cases h1 : buf ≤ j ∧ j < buf + n
      · have : buf ≤ j ∧ j < buf + (n + 1) := by omega
        rw [if_pos h1, if_pos this]
      · have : ¬ (buf ≤ j ∧ j < buf + (n + 1)) := by omega
        rw [if_neg h1, if_neg this]

/-- A padding loop over `x = a .. a + k - 1` storing `v` at `buf + (x + 1)`, read at `j`. -/
theorem foldl_update_pad {α : Type} (v : α) (buf : Nat) (k : Nat) :
    ∀ (a : Nat) (m0 : Nat → α) (j : Nat),
    (List.range' a k).foldl (fun (m : Nat → α) (x : Nat) => Function.update m (buf + (x + 1)) v) m0 j
      = if buf + a + 1 ≤ j ∧ j ≤ buf + a + k then v else m0 j := by
  induction k with
  | zero =>
    intro a m0 j
    have : ¬ (buf + a + 1 ≤ j ∧ j ≤ buf + a + 0) := by omega
    rw [if_neg this]
    rfl
  | succ k ih =>
    intro a m0 j
    rw [List.range'_succ, List.foldl_cons, ih]
    by_cases h1 : buf + (a + 1) + 1 ≤ j ∧ j ≤ buf + (a + 1) + k
    · have : buf + a + 1 ≤ j ∧ j ≤ buf + a + (k + 1) := by omega
      rw [if_pos h1, if_pos this]
    · rw [if_neg h1]
      by_cases hj : j = buf + (a + 1)
      · subst hj
        have : buf + a + 1 ≤ buf + (a + 1) ∧ buf + (a + 1) ≤ buf + a + (k + 1) := by omega
        rw [if_pos this, Function.update_same]
      · have : ¬ (buf + a + 1 ≤ j ∧ j ≤ buf + a + (k + 1)) := by omega
        rw [if_neg this, Function.update_noteq hj]

/-- The buffer after `helperWrite`, read at offset `j`: the padding loop covers the
offsets `buf + n + 1 .. buf + len` and the copy loop the offsets `buf .. buf + n - 1`,
where `n` is the length of the text cut to `len`. -/
theorem helperWrite_apply (txt : List Int) (upLo : Nat → Int) (buf len j : Nat) :
    helperWrite txt upLo buf len j =
      if buf + min txt.length len + 1 ≤ j ∧ j ≤ buf + len then 32
      else if buf ≤ j ∧ j < buf + min txt.length len then charAt txt (j - buf)
      else upLo j := by
  unfold helperWrite
  rw [foldl_update_pad, foldl_update_range]
  by_cases hlen : txt.length > len
  · rw [if_pos hlen]
    have hmin : min txt.length len = len := by omega
    have htl : (List.take len txt).length = len := by simp; omega
    rw [hmin, htl]
    have h1 : ¬ (buf + len + 1 ≤ j ∧ j ≤ buf + len + (len - len)) := by omega
    have h2 : ¬ (buf + len + 1 ≤ j ∧ j ≤ buf + len) := by omega
    rw [if_neg h1, if_neg h2]
    by_cases h3 : buf ≤ j ∧ j < buf + len
    · rw [if_pos h3, if_pos h3]
      unfold charAt
      have : j - buf < len := by omega
      simp [List.getD_eq_getElem?_getD, List.getElem?_take, this]
    · rw [if_neg h3, if_neg h3]
  · rw [if_neg hlen]
    have hmin : min txt.length len = txt.length := by omega
    rw [hmin]
    have e : buf + txt.length + (len - txt.length) = buf + len := by omega
    rw [e]

/-- Reading the first `n` characters of a text one by one gives its first `n`
characters. -/
theorem map_charAt_range (txt : List Int) (n : Nat) (h : n ≤ txt.length) :
    (List.range n).map (fun k => charAt txt k) = txt.take n := by
  apply List.ext_getElem
  · simp [h]
  · intro i h1 h2
    have hi : i < n := by simpa using h1
    have hi2 : i < txt.length := by omega
    simp [charAt, List.getD_eq_getElem?_getD, List.getElem?_eq_getElem hi2]

/-- What a text at least as long as the region leaves in the buffer. -/
theorem helperWrite_long (txt : List Int) (upLo : Nat → Int) (buf len : Nat)
    (h : len ≤ txt.length) :
    (List.range len).map (fun k => helperWrite txt upLo buf len (buf + k)) = txt.take len ∧
    ∀ j, ¬ (buf ≤ j ∧ j < buf + len) → helperWrite txt upLo buf len j = upLo j := by
  have hmin : min txt.length len = len := by omega
  constructor
  · rw [← map_charAt_range txt len h]
    apply List.map_congr_left
    intro k hk
    have hk2 : k < len := by simpa using hk
    rw [helperWrite_apply, hmin, if_neg (by omega), if_pos (by omega)]
    congr 1
    omega
  · intro j hj
    rw [helperWrite_apply, hmin, if_neg (by omega), if_neg hj]

/-! ## Auxiliary lemmas: the scroll part of a refresh -/

/-- No step is taken while `time + delay` is not below the clock reading. -/
theorem helperScroll_not_due (sc : scroll_t) (m : Nat → Int) (disp now : Nat)
    (h : ¬ ((sc.time + sc.delay) % 2 ^ 32 < now)) :
    helperScroll sc m disp now = (sc, m) := by
  unfold helperScroll
  rw [if_neg h]

/-- A scroll step stores only into the four cells of its row. -/
theorem helperScroll_outside (sc : scroll_t) (m : Nat → Int) (disp now j : Nat)
    (hj : ¬ (disp ≤ j ∧ j < disp + 4)) :
    (helperScroll sc m disp now).2 j = m j := by
  unfold helperScroll
  by_cases hd : (sc.time + sc.delay) % 2 ^ 32 < now
  · rw [if_pos hd]
    by_cases hl : sc.toLeft ≠ 0
    · rw [if_pos hl]
      have e : List.range 3 = [0, 1, 2] := rfl
      simp only [e, List.foldl_cons, List.foldl_nil]
      rw [Function.update_noteq (by omega), Function.update_noteq (by omega),
        Function.update_noteq (by omega), Function.update_noteq (by omega)]
    · rw [if_neg hl]
      simp only [List.foldl_cons, List.foldl_nil]
      rw [Function.update_noteq (by omega), Function.update_noteq (by omega),
        Function.update_noteq (by omega), Function.update_noteq (by omega)]
  · rw [if_neg hd]

/-- The scroll part touches the buffer and the scroll records only. -/
theorem refreshScroll_frame (s : State) (now : Nat) :
    (refreshScroll s now).m_slaveSelectPin = s.m_slaveSelectPin ∧
    (refreshScroll s now).m_segmentSize = s.m_segmentSize ∧
    (refreshScroll s now).m_ascii_table = s.m_ascii_table ∧
    (refreshScroll s now).m_dps = s.m_dps ∧
    (refreshScroll s now).m_blink = s.m_blink := by
  unfold refreshScroll
  dsimp only
  split_ifs <;> exact ⟨rfl, rfl, rfl, rfl, rfl⟩

/-- With both delays zero the scroll part does nothing. -/
theorem refreshScroll_inactive (s : State) (now : Nat)
    (hu : s.m_scrollUpper.delay = 0) (hl : s.m_scrollLower.delay = 0) :
    refreshScroll s now = s := by
  unfold refreshScroll
  simp [hu, hl]

/-- A cell keeps its character through the scroll part when no scroll step is due on
its row. -/
theorem refreshScroll_cell (s : State) (now j : Nat)
    (hu : j < 4 → s.m_scrollUpper.delay = 0 ∨
      ¬ ((s.m_scrollUpper.time + s.m_scrollUpper.delay) % 2 ^ 32 < now))
    (hl : 4 ≤ j → j < 8 → s.m_scrollLower.delay = 0 ∨
      ¬ ((s.m_scrollLower.time + s.m_scrollLower.delay) % 2 ^ 32 < now)) :
    (refreshScroll s now).m_disp.upLo j = s.m_disp.upLo j := by
  have key : ∀ (sc : scroll_t) (m : Nat → Int) (disp : Nat),
      (disp ≤ j → j < disp + 4 → sc.delay = 0 ∨ ¬ ((sc.time + sc.delay) % 2 ^ 32 < now)) →
      sc.delay ≠ 0 → (helperScroll sc m disp now).2 j = m j := by
    intro sc m disp hnd hd
    by_cases hin : disp ≤ j ∧ j < disp + 4
    · rcases hnd hin.1 hin.2 with h0 | h1
      · exact absurd h0 hd
      · rw [helperScroll_not_due sc m disp now h1]
    · exact helperScroll_outside sc m disp now j hin
  unfold refreshScroll
  dsimp only
  split_ifs with h1 h2 h2
  · dsimp only
    rw [key _ _ lower (fun a b => hl (by simpa [lower] using a) (by simpa [lower] using b)) h2,
      key _ _ upper (fun _ b => hu (by simpa [upper] using b)) h1]
  · dsimp only
    rw [key _ _ upper (fun _ b => hu (by simpa [upper] using b)) h1]
  · dsimp only
    rw [key _ _ lower (fun a b => hl (by simpa [lower] using a) (by simpa [lower] using b)) h2]
  · rfl

/-! ## Auxiliary lemmas: the digit loop of a refresh -/

/-- Setting bit 8 of the packet is setting bit 0 of the segment byte. -/
theorem packet_or_decimal_point (a m : Nat) (c : Prop) [Decidable c] :
    ((a <<< 8) ||| m) ||| (if c then 0x0100 else 0x0000) =
      ((a ||| (if c then 1 else 0)) <<< 8) ||| m := by
  by_cases h : c
  · rw [if_pos h, if_pos h]
    apply Nat.eq_of_testBit_eq
    intro j
    simp only [Nat.testBit_or, Nat.testBit_shiftLeft]
    have e : (0x0100 : Nat) = 1 <<< 8 := by decide
    rw [e, Nat.testBit_shiftLeft]
    cases decide (j ≥ 8) <;> cases a.testBit (j - 8) <;> cases m.testBit j <;>
      cases Nat.testBit 1 (j - 8) <;> rfl
  · rw [if_neg h, if_neg h]
    simp

theorem packet_or_256 (a m : Nat) : a <<< 8 ||| m ||| 256 = (a ||| 1) <<< 8 ||| m := by
  simpa using packet_or_decimal_point a m True

/-- The low byte of a packet is its digit-select byte. -/
theorem low_byte_of_packet (a m : Nat) (hm : m < 256) : ((a <<< 8) ||| m) % 256 = m := by
  have e : a <<< 8 ||| m = 2 ^ 8 * a + m := by
    rw [Nat.mul_add_lt_is_or (by simpa using hm), Nat.shiftLeft_eq, Nat.mul_comm]
  rw [e]
  omega

/-- The digit-select byte of digit `i` is the single bit `7 - i`. -/
theorem digit_select_one_hot (i : Nat) (hi : i < 8) :
    0x80 >>> i < 256 ∧ 0x80 >>> i = 2 ^ (7 - i) := by
  interval_cases i <;> decide

/-- One round of the digit loop changes nothing but the blink slot of its digit. -/
theorem refreshDigit_fst_frame (t : Nat) (s : State) (dp : Nat) (out : List BusEvent) (i : Nat) :
    (refreshDigit t (s, dp, out) i).1.m_slaveSelectPin = s.m_slaveSelectPin ∧
    (refreshDigit t (s, dp, out) i).1.m_segmentSize = s.m_segmentSize ∧
    (refreshDigit t (s, dp, out) i).1.m_disp = s.m_disp ∧
    (refreshDigit t (s, dp, out) i).1.m_ascii_table = s.m_ascii_table ∧
    (refreshDigit t (s, dp, out) i).1.m_scrollUpper = s.m_scrollUpper ∧
    (refreshDigit t (s, dp, out) i).1.m_scrollLower = s.m_scrollLower ∧
    (refreshDigit t (s, dp, out) i).1.m_dps = s.m_dps ∧
    (refreshDigit t (s, dp, out) i).1.m_blink.on_ = s.m_blink.on_ ∧
    (refreshDigit t (s, dp, out) i).1.m_blink.off = s.m_blink.off ∧
    (∀ j, j ≠ i → (refreshDigit t (s, dp, out) i).1.m_blink.isOn j = s.m_blink.isOn j) ∧
    (∀ j, j ≠ i →
      (refreshDigit t (s, dp, out) i).1.m_blink.nextToggle j = s.m_blink.nextToggle j) := by
  unfold refreshDigit
  dsimp only
  split_ifs <;>
    refine ⟨rfl, rfl, rfl, rfl, rfl, rfl, rfl, rfl, rfl, ?_, ?_⟩ <;>
    intro j hj <;> simp [Function.update_noteq hj]

/-- One round of the digit loop shifts `dp` and appends one framed transfer. -/
theorem refreshDigit_snd (t : Nat) (s : State) (dp : Nat) (out : List BusEvent) (i : Nat) :
    (refreshDigit t (s, dp, out) i).2.1 = dp >>> 1 ∧
    (refreshDigit t (s, dp, out) i).2.2 = out ++ frame s.m_slaveSelectPin
      (if (refreshDigit t (s, dp, out) i).1.m_blink.isOn i ≠ 0 then
        ((asciiTo7seg s.m_ascii_table (s.m_disp.upLo i) |||
          (if (s.m_dps &&& dp) ≠ 0 then 1 else 0)) <<< 8) ||| (0x80 >>> i)
       else 0x80 >>> i) := by
  refine ⟨rfl, ?_⟩
  unfold refreshDigit frame
  dsimp only
  split_ifs <;> simp_all <;> exact packet_or_256 _ _

/-- A digit that is not blinking leaves the state as it is. -/
theorem refreshDigit_idle (t : Nat) (s : State) (dp : Nat) (out : List BusEvent) (i : Nat)
    (h : s.m_blink.nextToggle i = 0) : (refreshDigit t (s, dp, out) i).1 = s := by
  unfold refreshDigit
  dsimp only
  rw [if_neg (fun hc => hc.1 h)]

/-- The state and the trace after the first `n` rounds of the digit loop. -/
theorem refresh_loop (t : Nat) (s : State) (n : Nat) :
    ((List.range n).foldl (refreshDigit t) (s, 0x80, [])).1.m_slaveSelectPin
      = s.m_slaveSelectPin ∧
    ((List.range n).foldl (refreshDigit t) (s, 0x80, [])).1.m_segmentSize = s.m_segmentSize ∧
    ((List.range n).foldl (refreshDigit t) (s, 0x80, [])).1.m_disp = s.m_disp ∧
    ((List.range n).foldl (refreshDigit t) (s, 0x80, [])).1.m_ascii_table = s.m_ascii_table ∧
    ((List.range n).foldl (refreshDigit t) (s, 0x80, [])).1.m_scrollUpper = s.m_scrollUpper ∧
    ((List.range n).foldl (refreshDigit t) (s, 0x80, [])).1.m_scrollLower = s.m_scrollLower ∧
    ((List.range n).foldl (refreshDigit t) (s, 0x80, [])).1.m_dps = s.m_dps ∧
    (∀ j, n ≤ j →
      ((List.range n).foldl (refreshDigit t) (s, 0x80, [])).1.m_blink.isOn j
        = s.m_blink.isOn j) ∧
    ((List.range n).foldl (refreshDigit t) (s, 0x80, [])).2.1 = 0x80 >>> n ∧
    ((List.range n).foldl (refreshDigit t) (s, 0x80, [])).2.2 =
      (List.range n).flatMap (fun i => frame s.m_slaveSelectPin
        (if ((List.range n).foldl (refreshDigit t) (s, 0x80, [])).1.m_blink.isOn i ≠ 0 then
          ((asciiTo7seg s.m_ascii_table (s.m_disp.upLo i) |||
            (if (s.m_dps &&& (0x80 >>> i)) ≠ 0 then 1 else 0)) <<< 8) ||| (0x80 >>> i)
         else 0x80 >>> i)) := by
  induction n with
  | zero => simp
  | succ n ih =>
    rw [List.range_succ, List.foldl_append, List.foldl_cons, List.foldl_nil]
    generalize hr : (List.range n).foldl (refreshDigit t) (s, 0x80, []) = r at ih ⊢
    obtain ⟨r1, rdp, rout⟩ := r
    obtain ⟨h1, h2, h3, h4, h5, h6, h7, h8, h9, h10⟩ := ih
    dsimp only at h1 h2 h3 h4 h5 h6 h7 h8 h9 h10
    obtain ⟨f1, f2, f3, f4, f5, f6, f7, -, -, f10, -⟩ := refreshDigit_fst_frame t r1 rdp rout n
    obtain ⟨g1, g2⟩ := refreshDigit_snd t r1 rdp rout n
    refine ⟨f1.trans h1, f2.trans h2, f3.trans h3, f4.trans h4, f5.trans h5, f6.trans h6,
      f7.trans h7, ?_, ?_, ?_⟩
    · intro j hj
      rw [f10 j (by omega), h8 j (by omega)]
    · rw [g1, h9, Nat.shiftRight_add]
    · rw [g2, h10, List.flatMap_append]
      congr 1
      · apply List.flatMap_congr
        intro i hi
        have hi2 : i < n := by simpa using hi
        rw [(refreshDigit_fst_frame t r1 rdp _ n).2.2.2.2.2.2.2.2.2.1 i (by omega)]
      · simp only [List.flatMap_cons, List.flatMap_nil, List.append_nil]
        rw [h1, h3, h4, h7, h9]

/-- With no digit blinking the digit loop leaves the state as it is. -/
theorem refresh_loop_idle (t : Nat) (s : State) (n : Nat)
    (h : ∀ i, i < n → s.m_blink.nextToggle i = 0) (acc : Nat × List BusEvent) :
    ((List.range n).foldl (refreshDigit t) (s, acc)).1 = s := by
  induction n with
  | zero => rfl
  | succ n ih =>
    rw [List.range_succ, List.foldl_append, List.foldl_cons, List.foldl_nil]
    have ih2 := ih (fun i hi => h i (by omega))
    generalize (List.range n).foldl (refreshDigit t) (s, acc) = r at ih2 ⊢
    obtain ⟨r1, rdp, rout⟩ := r
    dsimp only at ih2
    subst ih2
    exact refreshDigit_idle t r1 rdp rout n (h n (by omega))

/-! ## Auxiliary lemmas: the bus trace of a refresh -/

theorem transfers_append (a b : List BusEvent) :
    transfers (a ++ b) = transfers a ++ transfers b := by
  induction a with
  | nil => rfl
  | cons e a ih =>
    cases e with
    | digitalWrite pin level => simpa [transfers] using ih
    | transfer16 w => simpa [transfers] using ih

theorem transfers_flatMap_frame {α : Type} (pin : Int) (w : α → Nat) (l : List α) :
    transfers (l.flatMap (fun i => frame pin (w i))) = l.map w := by
  induction l with
  | nil => rfl
  | cons a l ih =>
    rw [List.flatMap_cons, transfers_append, ih]
    rfl

theorem flatMap_frame_map {α : Type} (pin : Int) (w : α → Nat) (l : List α) :
    l.flatMap (fun i => frame pin (w i)) = (l.map w).flatMap (frame pin) := by
  induction l with
  | nil => rfl
  | cons a l ih => simp [List.flatMap_cons, ih]

/-- The buffer after a refresh is the buffer after its scroll part, and the trace is
one framed transfer per digit, in digit order. -/
theorem refresh_trace (s : State) (now : Nat) :
    (refresh s now).1.m_disp = (refreshScroll s now).m_disp ∧
    (refresh s now).2 =
      (List.range s.m_segmentSize).flatMap (fun i => frame s.m_slaveSelectPin
        (if (refresh s now).1.m_blink.isOn i ≠ 0 then
          ((asciiTo7seg s.m_ascii_table ((refresh s now).1.m_disp.upLo i) |||
            (if (s.m_dps &&& (0x80 >>> i)) ≠ 0 then 1 else 0)) <<< 8) ||| (0x80 >>> i)
         else 0x80 >>> i)) := by
  obtain ⟨p1, p2, p3, p4, -⟩ := refreshScroll_frame s now
  obtain ⟨-, -, h3, -, -, -, -, -, -, h10⟩ :=
    refresh_loop now (refreshScroll s now) (refreshScroll s now).m_segmentSize
  have hr : refresh s now =
      (((List.range (refreshScroll s now).m_segmentSize).foldl (refreshDigit now)
          (refreshScroll s now, 0x80, [])).1,
       ((List.range (refreshScroll s now).m_segmentSize).foldl (refreshDigit now)
          (refreshScroll s now, 0x80, [])).2.2) := rfl
  rw [hr]
  refine ⟨h3, ?_⟩
  dsimp only
  rw [h10, h3, p1, p2, p3, p4]

/-- The words of a refresh, one per digit. -/
theorem refresh_transfers (s : State) (now : Nat) :
    transfers (refresh s now).2 =
      (List.range s.m_segmentSize).map (fun i =>
        if (refresh s now).1.m_blink.isOn i ≠ 0 then
          ((asciiTo7seg s.m_ascii_table ((refresh s now).1.m_disp.upLo i) |||
            (if (s.m_dps &&& (0x80 >>> i)) ≠ 0 then 1 else 0)) <<< 8) ||| (0x80 >>> i)
        else 0x80 >>> i) := by
  have h := congrArg transfers (refresh_trace s now).2
  rw [transfers_flatMap_frame] at h
  exact h

/-- The word of digit `i` in the trace of a refresh. -/
theorem refresh_transfers_get (s : State) (now i : Nat) (hi : i < s.m_segmentSize) :
    (transfers (refresh s now).2)[i]? = some
      (if (refresh s now).1.m_blink.isOn i ≠ 0 then
        ((asciiTo7seg s.m_ascii_table ((refresh s now).1.m_disp.upLo i) |||
          (if (s.m_dps &&& (0x80 >>> i)) ≠ 0 then 1 else 0)) <<< 8) ||| (0x80 >>> i)
       else 0x80 >>> i) := by
  rw [refresh_transfers, List.getElem?_map, List.getElem?_range hi]
  rfl

/-- With no digit blinking a refresh changes the state only through the scroll part. -/
theorem refresh_idle (s : State) (now : Nat)
    (h : ∀ i, i < s.m_segmentSize → s.m_blink.nextToggle i = 0) :
    (refresh s now).1 = refreshScroll s now := by
  obtain ⟨-, p2, -, -, p5⟩ := refreshScroll_frame s now
  exact refresh_loop_idle now (refreshScroll s now) (refreshScroll s now).m_segmentSize
    (fun i hi => by rw [p5]; exact h i (by rw [← p2]; exact hi)) _

/-! ## Auxiliary lemmas: the blink operations -/


/-- The state after the first `n` rounds of the loop of `setBlink`. -/
theorem setBlink_loop (s : State) (digit on_ off t : Nat) (n : Nat) :
    let r := (List.range n).foldl
      (fun (s : State) (i : Nat) =>
        if ((0x80 >>> i) &&& digit) ≠ 0 then
          { s with m_blink :=
            { on_ := Function.update s.m_blink.on_ i on_
              off := Function.update s.m_blink.off i off
              nextToggle := Function.update s.m_blink.nextToggle i t
              isOn := Function.update s.m_blink.isOn i 0 } }
        else s) s
    { r with m_blink := s.m_blink } = s ∧
    ∀ j,
      r.m_blink.on_ j = (if j < n ∧ ((0x80 >>> j) &&& digit) ≠ 0 then on_ else s.m_blink.on_ j) ∧
      r.m_blink.off j = (if j < n ∧ ((0x80 >>> j) &&& digit) ≠ 0 then off else s.m_blink.off j) ∧
      r.m_blink.nextToggle j =
        (if j < n ∧ ((0x80 >>> j) &&& digit) ≠ 0 then t else s.m_blink.nextToggle j) ∧
      r.m_blink.isOn j = (if j < n ∧ ((0x80 >>> j) &&& digit) ≠ 0 then 0 else s.m_blink.isOn j) := by
  induction n with
  | zero =>
    refine ⟨rfl, fun j => ?_⟩
    simp
  | succ n ih =>
    rw [List.range_succ, List.foldl_append, List.foldl_cons, List.foldl_nil]
    generalize (List.range n).foldl _ s = r at ih ⊢
    obtain ⟨h1, h2⟩ := ih
    by_cases hb : ((0x80 >>> n) &&& digit) ≠ 0
    · rw [if_pos hb]
      refine ⟨h1, fun j => ?_⟩
      obtain ⟨a1, a2, a3, a4⟩ := h2 j
      by_cases hj : j = n
      · subst hj
        have hc : j < j + 1 ∧ ((0x80 >>> j) &&& digit) ≠ 0 := ⟨by omega, hb⟩
        simp only [Function.update_same, if_pos hc, and_self]
      · have hiff : (j < n + 1 ∧ ((0x80 >>> j) &&& digit) ≠ 0) ↔
            (j < n ∧ ((0x80 >>> j) &&& digit) ≠ 0) := by
          constructor <;> rintro ⟨a, b⟩ <;> exact ⟨by omega, b⟩
        simp only [Function.update_noteq hj, a1, a2, a3, a4, hiff, and_self]
    · rw [if_neg hb]
      refine ⟨h1, fun j => ?_⟩
      obtain ⟨a1, a2, a3, a4⟩ := h2 j
      have hiff : (j < n + 1 ∧ ((0x80 >>> j) &&& digit) ≠ 0) ↔
          (j < n ∧ ((0x80 >>> j) &&& digit) ≠ 0) := by
        constructor
        · rintro ⟨a, b⟩
          refine ⟨?_, b⟩
          by_contra hc
          have : j = n := by omega
          subst this
          exact hb b
        · rintro ⟨a, b⟩
          exact ⟨by omega, b⟩
      simp only [a1, a2, a3, a4, hiff, and_self]

/-- What `setBlink` leaves: the four blink fields of every selected digit below 8 are
set, everything else is as before. -/
theorem setBlink_apply (s : State) (digit on_ off t : Nat) :
    { setBlink s digit on_ off t with m_blink := s.m_blink } = s ∧
    ∀ j,
      (setBlink s digit on_ off t).m_blink.on_ j =
        (if j < 8 ∧ ((0x80 >>> j) &&& digit) ≠ 0 then on_ else s.m_blink.on_ j) ∧
      (setBlink s digit on_ off t).m_blink.off j =
        (if j < 8 ∧ ((0x80 >>> j) &&& digit) ≠ 0 then off else s.m_blink.off j) ∧
      (setBlink s digit on_ off t).m_blink.nextToggle j =
        (if j < 8 ∧ ((0x80 >>> j) &&& digit) ≠ 0 then t else s.m_blink.nextToggle j) ∧
      (setBlink s digit on_ off t).m_blink.isOn j =
        (if j < 8 ∧ ((0x80 >>> j) &&& digit) ≠ 0 then 0 else s.m_blink.isOn j) :=
  setBlink_loop s digit on_ off t 8

/-- The state after the first `n` rounds of the loop of `stopBlink`. -/
theorem stopBlink_loop (s : State) (n : Nat) :
    let r := (List.range n).foldl
      (fun (s : State) (i : Nat) =>
        { s with m_blink := { s.m_blink with
          nextToggle := Function.update s.m_blink.nextToggle i 0
          isOn := Function.update s.m_blink.isOn i 1 } }) s
    { r with m_blink := s.m_blink } = s ∧
    r.m_blink.on_ = s.m_blink.on_ ∧ r.m_blink.off = s.m_blink.off ∧
    ∀ j,
      r.m_blink.nextToggle j = (if j < n then 0 else s.m_blink.nextToggle j) ∧
      r.m_blink.isOn j = (if j < n then 1 else s.m_blink.isOn j) := by
  induction n with
  | zero =>
    refine ⟨rfl, rfl, rfl, fun j => ?_⟩
    simp
  | succ n ih =>
    rw [List.range_succ, List.foldl_append, List.foldl_cons, List.foldl_nil]
    generalize (List.range n).foldl _ s = r at ih ⊢
    obtain ⟨h1, h2, h3, h4⟩ := ih
    refine ⟨h1, h2, h3, fun j => ?_⟩
    obtain ⟨a1, a2⟩ := h4 j
    by_cases hj : j = n
    · subst hj
      simp
    · have hiff : j < n + 1 ↔ j < n := by omega
      simp only [Function.update_noteq hj, a1, a2, hiff, and_self]

theorem stopBlink_apply (s : State) :
    { stopBlink s with m_blink := s.m_blink } = s ∧
    (stopBlink s).m_blink.on_ = s.m_blink.on_ ∧ (stopBlink s).m_blink.off = s.m_blink.off ∧
    ∀ j,
      (stopBlink s).m_blink.nextToggle j = (if j < 8 then 0 else s.m_blink.nextToggle j) ∧
      (stopBlink s).m_blink.isOn j = (if j < 8 then 1 else s.m_blink.isOn j) :=
  stopBlink_loop s 8

/-! ## Auxiliary lemmas: blink slots through a refresh -/

/-- The blink slot of digit `i` after its round of the digit loop. -/
theorem refreshDigit_slot (t : Nat) (s : State) (dp : Nat) (out : List BusEvent) (i : Nat) :
    (refreshDigit t (s, dp, out) i).1.m_blink.isOn i =
      (if s.m_blink.nextToggle i ≠ 0 ∧ s.m_blink.nextToggle i < t then
        (if s.m_blink.isOn i ≠ 0 then 0 else 1) else s.m_blink.isOn i) ∧
    (refreshDigit t (s, dp, out) i).1.m_blink.nextToggle i =
      (if s.m_blink.nextToggle i ≠ 0 ∧ s.m_blink.nextToggle i < t then
        (if s.m_blink.isOn i ≠ 0 then (s.m_blink.off i + t) % 2 ^ 32
         else (s.m_blink.on_ i + t) % 2 ^ 32) else s.m_blink.nextToggle i) := by
  unfold refreshDigit
  dsimp only
  by_cases hc : s.m_blink.nextToggle i ≠ 0 ∧ s.m_blink.nextToggle i < t
  · rw [if_pos hc, if_pos hc, if_pos hc]
    by_cases hv : s.m_blink.isOn i ≠ 0
    · simp [hv]
    · simp [hv]
  · rw [if_neg hc, if_neg hc, if_neg hc]
    exact ⟨rfl, rfl⟩

/-- The blink slots after the first `n` rounds of the digit loop: a slot below `n`
has gone through its blink step, every other slot is as before. -/
theorem refresh_loop_blink (t : Nat) (s : State) (acc : Nat × List BusEvent) (n : Nat) :
    ((List.range n).foldl (refreshDigit t) (s, acc)).1.m_blink.on_ = s.m_blink.on_ ∧
    ((List.range n).foldl (refreshDigit t) (s, acc)).1.m_blink.off = s.m_blink.off ∧
    ∀ j,
      ((List.range n).foldl (refreshDigit t) (s, acc)).1.m_blink.isOn j =
        (if j < n ∧ s.m_blink.nextToggle j ≠ 0 ∧ s.m_blink.nextToggle j < t then
          (if s.m_blink.isOn j ≠ 0 then 0 else 1) else s.m_blink.isOn j) ∧
      ((List.range n).foldl (refreshDigit t) (s, acc)).1.m_blink.nextToggle j =
        (if j < n ∧ s.m_blink.nextToggle j ≠ 0 ∧ s.m_blink.nextToggle j < t then
          (if s.m_blink.isOn j ≠ 0 then (s.m_blink.off j + t) % 2 ^ 32
           else (s.m_blink.on_ j + t) % 2 ^ 32) else s.m_blink.nextToggle j) := by
  induction n with
  | zero =>
    refine ⟨rfl, rfl, fun j => ?_⟩
    simp
  | succ n ih =>
    rw [List.range_succ, List.foldl_append, List.foldl_cons, List.foldl_nil]
    generalize (List.range n).foldl (refreshDigit t) (s, acc) = r at ih ⊢
    obtain ⟨r1, rdp, rout⟩ := r
    obtain ⟨h1, h2, h3⟩ := ih
    dsimp only at h1 h2 h3
    obtain ⟨-, -, -, -, -, -, -, f8, f9, f10, f11⟩ := refreshDigit_fst_frame t r1 rdp rout n
    obtain ⟨g1, g2⟩ := refreshDigit_slot t r1 rdp rout n
    refine ⟨f8.trans h1, f9.trans h2, fun j => ?_⟩
    obtain ⟨a1, a2⟩ := h3 j
    by_cases hj : j = n
    · subst hj
      have hlt : ¬ (j < j ∧ s.m_blink.nextToggle j ≠ 0 ∧ s.m_blink.nextToggle j < t) := by omega
      rw [if_neg hlt] at a1 a2
      rw [g1, g2, a1, a2, h1, h2]
      have hiff : (j < j + 1 ∧ s.m_blink.nextToggle j ≠ 0 ∧ s.m_blink.nextToggle j < t) ↔
          (s.m_blink.nextToggle j ≠ 0 ∧ s.m_blink.nextToggle j < t) := by
        constructor
        · exact fun h => h.2
        · exact fun h => ⟨by omega, h⟩
      simp only [hiff, and_self]
    · rw [f10 j hj, f11 j hj, a1, a2]
      have hiff : (j < n + 1 ∧ s.m_blink.nextToggle j ≠ 0 ∧ s.m_blink.nextToggle j < t) ↔
          (j < n ∧ s.m_blink.nextToggle j ≠ 0 ∧ s.m_blink.nextToggle j < t) := by
        constructor <;> rintro ⟨a, b⟩ <;> exact ⟨by omega, b⟩
      simp only [hiff, and_self]

/-- The blink slots after a refresh. -/
theorem refresh_blink (s : State) (now : Nat) :
    (refresh s now).1.m_blink.on_ = s.m_blink.on_ ∧
    (refresh s now).1.m_blink.off = s.m_blink.off ∧
    ∀ j,
      (refresh s now).1.m_blink.isOn j =
        (if j < s.m_segmentSize ∧ s.m_blink.nextToggle j ≠ 0 ∧ s.m_blink.nextToggle j < now then
          (if s.m_blink.isOn j ≠ 0 then 0 else 1) else s.m_blink.isOn j) ∧
      (refresh s now).1.m_blink.nextToggle j =
        (if j < s.m_segmentSize ∧ s.m_blink.nextToggle j ≠ 0 ∧ s.m_blink.nextToggle j < now then
          (if s.m_blink.isOn j ≠ 0 then (s.m_blink.off j + now) % 2 ^ 32
           else (s.m_blink.on_ j + now) % 2 ^ 32) else s.m_blink.nextToggle j) := by
  obtain ⟨-, p2, -, -, p5⟩ := refreshScroll_frame s now
  have h := refresh_loop_blink now (refreshScroll s now) (0x80, [])
    (refreshScroll s now).m_segmentSize
  have hr : (refresh s now).1 =
      ((List.range (refreshScroll s now).m_segmentSize).foldl (refreshDigit now)
        (refreshScroll s now, 0x80, [])).1 := rfl
  rw [p5] at h
  rw [hr, ← p2]
  exact h

/-- The other members after a refresh: only the buffer, the scroll records and the
blink record can differ. -/
theorem refresh_frame (s : State) (now : Nat) :
    (refresh s now).1.m_slaveSelectPin = s.m_slaveSelectPin ∧
    (refresh s now).1.m_segmentSize = s.m_segmentSize ∧
    (refresh s now).1.m_ascii_table = s.m_ascii_table ∧
    (refresh s now).1.m_dps = s.m_dps ∧
    (refresh s now).1.m_scrollUpper = (refreshScroll s now).m_scrollUpper ∧
    (refresh s now).1.m_scrollLower = (refreshScroll s now).m_scrollLower ∧
    (refresh s now).1.m_disp = (refreshScroll s now).m_disp := by
  obtain ⟨p1, p2, p3, p4, -⟩ := refreshScroll_frame s now
  obtain ⟨h1, h2, h3, h4, h5, h6, h7, -, -, -⟩ :=
    refresh_loop now (refreshScroll s now) (refreshScroll s now).m_segmentSize
  exact ⟨h1.trans p1, h2.trans p2, h4.trans p3, h7.trans p4, h5, h6, h3⟩

/-- The members outside the blink record after `setBlink`. -/
theorem setBlink_frame (s : State) (digit on_ off t : Nat) :
    (setBlink s digit on_ off t).m_slaveSelectPin = s.m_slaveSelectPin ∧
    (setBlink s digit on_ off t).m_segmentSize = s.m_segmentSize ∧
    (setBlink s digit on_ off t).m_disp = s.m_disp ∧
    (setBlink s digit on_ off t).m_ascii_table = s.m_ascii_table ∧
    (setBlink s digit on_ off t).m_scrollUpper = s.m_scrollUpper ∧
    (setBlink s digit on_ off t).m_scrollLower = s.m_scrollLower ∧
    (setBlink s digit on_ off t).m_dps = s.m_dps := by
  have h := (setBlink_apply s digit on_ off t).1
  have e1 := congrArg State.m_slaveSelectPin h
  have e2 := congrArg State.m_segmentSize h
  have e3 := congrArg State.m_disp h
  have e4 := congrArg State.m_ascii_table h
  have e5 := congrArg State.m_scrollUpper h
  have e6 := congrArg State.m_scrollLower h
  have e7 := congrArg State.m_dps h
  exact ⟨e1, e2, e3, e4, e5, e6, e7⟩

/-- The members outside the blink record after `stopBlink`. -/
theorem stopBlink_frame (s : State) :
    (stopBlink s).m_slaveSelectPin = s.m_slaveSelectPin ∧
    (stopBlink s).m_segmentSize = s.m_segmentSize ∧
    (stopBlink s).m_disp = s.m_disp ∧
    (stopBlink s).m_ascii_table = s.m_ascii_table ∧
    (stopBlink s).m_scrollUpper = s.m_scrollUpper ∧
    (stopBlink s).m_scrollLower = s.m_scrollLower ∧
    (stopBlink s).m_dps = s.m_dps := by
  have h := (stopBlink_apply s).1
  have e1 := congrArg State.m_slaveSelectPin h
  have e2 := congrArg State.m_segmentSize h
  have e3 := congrArg State.m_disp h
  have e4 := congrArg State.m_ascii_table h
  have e5 := congrArg State.m_scrollUpper h
  have e6 := congrArg State.m_scrollLower h
  have e7 := congrArg State.m_dps h
  exact ⟨e1, e2, e3, e4, e5, e6, e7⟩

/-- A refresh leaves a slot without deadline as it is. -/
theorem refresh_keeps_idle (s : State) (now j : Nat) (h : s.m_blink.nextToggle j = 0) :
    (refresh s now).1.m_blink.nextToggle j = s.m_blink.nextToggle j ∧
    (refresh s now).1.m_blink.isOn j = s.m_blink.isOn j := by
  obtain ⟨-, -, hb⟩ := refresh_blink s now
  obtain ⟨b1, b2⟩ := hb j
  have hn : ¬ (j < s.m_segmentSize ∧ s.m_blink.nextToggle j ≠ 0 ∧
      s.m_blink.nextToggle j < now) := fun hc => hc.2.1 h
  constructor
  · rw [b2, if_neg hn]
  · rw [b1, if_neg hn]

/-- Every operation other than `setBlink` keeps the digits `0..7` not blinking and
visible once they are so. -/
theorem apply_keeps_idle (s : State) (op : Op) (hop : op.isSetBlink = false)
    (hs : ∀ j, j < 8 → s.m_blink.nextToggle j = 0 ∧ s.m_blink.isOn j = 1) :
    ∀ j, j < 8 → (op.apply s).m_blink.nextToggle j = 0 ∧ (op.apply s).m_blink.isOn j = 1 := by
  intro j hj
  obtain ⟨h0, h1⟩ := hs j hj
  cases op with
  | begin pin table =>
    have e : (Seg7Display.begin s pin table).2.m_blink = s.m_blink := by
      unfold Seg7Display.begin
      split_ifs <;> rfl
    show (Seg7Display.begin s pin table).2.m_blink.nextToggle j = 0 ∧
      (Seg7Display.begin s pin table).2.m_blink.isOn j = 1
    rw [e]
    exact ⟨h0, h1⟩
  | setSegmentsArraySize size =>
    have e : (Seg7Display.setSegmentsArraySize s size).2.m_blink = s.m_blink := by
      unfold Seg7Display.setSegmentsArraySize
      split_ifs <;> rfl
    show (Seg7Display.setSegmentsArraySize s size).2.m_blink.nextToggle j = 0 ∧
      (Seg7Display.setSegmentsArraySize s size).2.m_blink.isOn j = 1
    rw [e]
    exact ⟨h0, h1⟩
  | writeSegments txt => exact ⟨h0, h1⟩
  | writeUpper txt => exact ⟨h0, h1⟩
  | writeLower txt => exact ⟨h0, h1⟩
  | writeOneSegment seg ch now =>
    show (Seg7Display.writeOneSegment s seg ch now).2.1.m_blink.nextToggle j = 0 ∧
      (Seg7Display.writeOneSegment s seg ch now).2.1.m_blink.isOn j = 1
    unfold Seg7Display.writeOneSegment
    by_cases hr : seg > s.m_segmentSize ∨ seg = 0
    · rw [if_pos hr]
      exact ⟨h0, h1⟩
    · rw [if_neg hr]
      obtain ⟨k1, k2⟩ := refresh_keeps_idle
        { s with m_disp := { upLo := Function.update s.m_disp.upLo (seg - 1) ch } } now j h0
      exact ⟨k1.trans h0, k2.trans h1⟩
  | readOneSegment seg => exact ⟨h0, h1⟩
  | refresh now =>
    obtain ⟨k1, k2⟩ := refresh_keeps_idle s now j h0
    exact ⟨k1.trans h0, k2.trans h1⟩
  | scrollLowerEx str t left now => exact ⟨h0, h1⟩
  | scrollLower t left now => exact ⟨h0, h1⟩
  | scrollUpperEx str t left now => exact ⟨h0, h1⟩
  | scrollUpper t left now => exact ⟨h0, h1⟩
  | setDecimalPoints points => exact ⟨h0, h1⟩
  | setBlink digit on_ off t => simp [Op.isSetBlink] at hop
  | stopBlink =>
    obtain ⟨-, -, -, hb⟩ := stopBlink_apply s
    obtain ⟨b1, b2⟩ := hb j
    rw [if_pos hj] at b1 b2
    exact ⟨b1, b2⟩
  | stopScroll displays =>
    have e : (Seg7Display.stopScroll s displays).m_blink = s.m_blink := by
      unfold Seg7Display.stopScroll
      dsimp only
      split_ifs <;> rfl
    show (Seg7Display.stopScroll s displays).m_blink.nextToggle j = 0 ∧
      (Seg7Display.stopScroll s displays).m_blink.isOn j = 1
    rw [e]
    exact ⟨h0, h1⟩

/-- A sequence of operations without `setBlink` keeps the digits `0..7` not blinking
and visible once they are so. -/
theorem run_keeps_idle (ops : List Op) :
    ∀ (s : State), (∀ op, op ∈ ops → op.isSetBlink = false) →
    (∀ j, j < 8 → s.m_blink.nextToggle j = 0 ∧ s.m_blink.isOn j = 1) →
    ∀ j, j < 8 → (run s ops).m_blink.nextToggle j = 0 ∧ (run s ops).m_blink.isOn j = 1 := by
  induction ops with
  | nil => exact fun s _ hs => hs
  | cons op ops ih =>
    intro s hops hs
    have h1 := apply_keeps_idle s op (hops op (List.mem_cons_self _ _)) hs
    exact ih (op.apply s) (fun o ho => hops o (List.mem_cons_of_mem _ ho)) h1

/-! ## Auxiliary lemmas: scroll steps -/

/-- The scroll record after `helperScroll`; it does not depend on the buffer. -/
theorem helperScroll_fst (sc : scroll_t) (m : Nat → Int) (disp now : Nat) :
    (helperScroll sc m disp now).1 =
      if (sc.time + sc.delay) % 2 ^ 32 < now then
        { sc with
          time := now
          marker :=
            if sc.toLeft ≠ 0 then
              (if sc.text.length = sc.marker + 1 then 0 else (sc.marker + 1) % 2 ^ 8)
            else
              (if sc.marker = 0 then (sc.text.length + (2 ^ 8 - 1)) % 2 ^ 8
               else sc.marker - 1) }
      else sc := by
  unfold helperScroll
  by_cases hd : (sc.time + sc.delay) % 2 ^ 32 < now
  · rw [if_pos hd, if_pos hd]
    by_cases hl : sc.toLeft ≠ 0
    · rw [if_pos hl, if_pos hl]
    · rw [if_neg hl, if_neg hl]
  · rw [if_neg hd, if_neg hd]

/-- The buffer after a left scroll step that is due. -/
theorem helperScroll_left (sc : scroll_t) (m : Nat → Int) (disp now j : Nat)
    (hd : (sc.time + sc.delay) % 2 ^ 32 < now) (hl : sc.toLeft ≠ 0) :
    (helperScroll sc m disp now).2 j =
      if j = disp + 3 then charAt sc.text sc.marker
      else if disp ≤ j ∧ j < disp + 3 then m (j + 1)
      else m j := by
  unfold helperScroll
  rw [if_pos hd, if_pos hl]
  have e : List.range 3 = [0, 1, 2] := rfl
  simp only [e, List.foldl_cons, List.foldl_nil]
  by_cases h3 : j = disp + 3
  · subst h3
    simp
  · rw [if_neg h3, Function.update_noteq h3]
    by_cases h2 : j = disp + 2
    · subst h2
      rw [Function.update_same, if_pos (by omega)]
      rw [Function.update_noteq (by omega), Function.update_noteq (by omega)]
    · rw [Function.update_noteq h2]
      by_cases h1 : j = disp + 1
      · subst h1
        rw [Function.update_same, if_pos (by omega)]
        rw [Function.update_noteq (by omega)]
      · rw [Function.update_noteq h1]
        by_cases h0 : j = disp
        · subst h0
          rw [if_pos (by omega)]
          exact Function.update_same _ _ _
        · rw [Function.update_noteq (by omega), if_neg (by omega)]

/-- The buffer after a right scroll step that is due. -/
theorem helperScroll_right (sc : scroll_t) (m : Nat → Int) (disp now j : Nat)
    (hd : (sc.time + sc.delay) % 2 ^ 32 < now) (hl : ¬ sc.toLeft ≠ 0) :
    (helperScroll sc m disp now).2 j =
      if j = disp then charAt sc.text sc.marker
      else if disp < j ∧ j < disp + 4 then m (j - 1)
      else m j := by
  unfold helperScroll
  rw [if_pos hd, if_neg hl]
  simp only [List.foldl_cons, List.foldl_nil]
  by_cases h0 : j = disp
  · subst h0
    rw [if_pos rfl]
    exact Function.update_same _ _ _
  · rw [if_neg h0, Function.update_noteq (by omega)]
    by_cases h1 : j = disp + 1
    · subst h1
      rw [Function.update_same, if_pos (by omega)]
      rw [Function.update_noteq (by omega), Function.update_noteq (by omega)]
    · rw [Function.update_noteq h1]
      by_cases h2 : j = disp + 2
      · subst h2
        rw [Function.update_same, if_pos (by omega)]
        rw [Function.update_noteq (by omega)]
      · rw [Function.update_noteq h2]
        by_cases h3 : j = disp + 3
        · subst h3
          rw [Function.update_same, if_pos (by omega)]
        · rw [Function.update_noteq h3, if_neg (by omega)]

/-- The cells of a row after `helperScroll` depend on the cells of that row only. -/
theorem helperScroll_congr (sc : scroll_t) (m m2 : Nat → Int) (disp now j : Nat)
    (hm : ∀ k, disp ≤ k → k < disp + 4 → m k = m2 k) (h1 : disp ≤ j) (h2 : j < disp + 4) :
    (helperScroll sc m disp now).2 j = (helperScroll sc m2 disp now).2 j := by
  by_cases hd : (sc.time + sc.delay) % 2 ^ 32 < now
  · by_cases hl : sc.toLeft ≠ 0
    · rw [helperScroll_left sc m disp now j hd hl, helperScroll_left sc m2 disp now j hd hl]
      split_ifs with a b
      · rfl
      · exact hm (j + 1) (by omega) (by omega)
      · exact hm j h1 h2
    · rw [helperScroll_right sc m disp now j hd hl, helperScroll_right sc m2 disp now j hd hl]
      split_ifs with a b
      · rfl
      · exact hm (j - 1) (by omega) (by omega)
      · exact hm j h1 h2
  · rw [helperScroll_not_due sc m disp now hd, helperScroll_not_due sc m2 disp now hd]
    exact hm j h1 h2

/-- The scroll part of a refresh, by cases on the two delays. -/
theorem refreshScroll_eq (s : State) (now : Nat) :
    refreshScroll s now =
      if s.m_scrollUpper.delay ≠ 0 then
        if s.m_scrollLower.delay ≠ 0 then
          { s with
            m_scrollUpper := (helperScroll s.m_scrollUpper s.m_disp.upLo upper now).1
            m_scrollLower := (helperScroll s.m_scrollLower
              (helperScroll s.m_scrollUpper s.m_disp.upLo upper now).2 lower now).1
            m_disp := { upLo := (helperScroll s.m_scrollLower
              (helperScroll s.m_scrollUpper s.m_disp.upLo upper now).2 lower now).2 } }
        else
          { s with
            m_scrollUpper := (helperScroll s.m_scrollUpper s.m_disp.upLo upper now).1
            m_disp := { upLo := (helperScroll s.m_scrollUpper s.m_disp.upLo upper now).2 } }
      else
        if s.m_scrollLower.delay ≠ 0 then
          { s with
            m_scrollLower := (helperScroll s.m_scrollLower s.m_disp.upLo lower now).1
            m_disp := { upLo := (helperScroll s.m_scrollLower s.m_disp.upLo lower now).2 } }
        else s := by
  unfold refreshScroll
  by_cases hu : s.m_scrollUpper.delay ≠ 0
  · by_cases hl : s.m_scrollLower.delay ≠ 0
    · rw [if_pos hu, if_pos hu, if_pos hl]
    · rw [if_pos hu, if_pos hu, if_neg hl]
  · by_cases hl : s.m_scrollLower.delay ≠ 0
    · rw [if_neg hu, if_neg hu, if_pos hl]
    · rw [if_neg hu, if_neg hu, if_neg hl]

/-- The upper scroll record and the upper row after a refresh. -/
theorem refresh_scroll_upper (s : State) (now : Nat) :
    (refresh s now).1.m_scrollUpper =
      (if s.m_scrollUpper.delay ≠ 0 then
        (helperScroll s.m_scrollUpper s.m_disp.upLo upper now).1 else s.m_scrollUpper) ∧
    ∀ j, j < 4 → (refresh s now).1.m_disp.upLo j =
      (if s.m_scrollUpper.delay ≠ 0 then
        (helperScroll s.m_scrollUpper s.m_disp.upLo upper now).2 j else s.m_disp.upLo j) := by
  obtain ⟨-, -, -, -, e5, -, e7⟩ := refresh_frame s now
  rw [e5, e7, refreshScroll_eq]
  by_cases hu : s.m_scrollUpper.delay ≠ 0
  · by_cases hl : s.m_scrollLower.delay ≠ 0
    · rw [if_pos hu, if_pos hl, if_pos hu]
      refine ⟨rfl, fun j hj => ?_⟩
      rw [if_pos hu]
      exact helperScroll_outside _ _ lower now j (by simp [lower]; omega)
    · rw [if_pos hu, if_neg hl, if_pos hu]
      refine ⟨rfl, fun j hj => ?_⟩
      rw [if_pos hu]
  · by_cases hl : s.m_scrollLower.delay ≠ 0
    · rw [if_neg hu, if_pos hl, if_neg hu]
      refine ⟨rfl, fun j hj => ?_⟩
      rw [if_neg hu]
      exact helperScroll_outside _ _ lower now j (by simp [lower]; omega)
    · rw [if_neg hu, if_neg hl, if_neg hu]
      refine ⟨rfl, fun j hj => ?_⟩
      rw [if_neg hu]

/-- The lower scroll record and the lower row after a refresh. -/
theorem refresh_scroll_lower (s : State) (now : Nat) :
    (refresh s now).1.m_scrollLower =
      (if s.m_scrollLower.delay ≠ 0 then
        (helperScroll s.m_scrollLower s.m_disp.upLo lower now).1 else s.m_scrollLower) ∧
    ∀ j, 4 ≤ j → j < 8 → (refresh s now).1.m_disp.upLo j =
      (if s.m_scrollLower.delay ≠ 0 then
        (helperScroll s.m_scrollLower s.m_disp.upLo lower now).2 j else s.m_disp.upLo j) := by
  obtain ⟨-, -, -, -, -, e6, e7⟩ := refresh_frame s now
  rw [e6, e7, refreshScroll_eq]
  by_cases hu : s.m_scrollUpper.delay ≠ 0
  · by_cases hl : s.m_scrollLower.delay ≠ 0
    · rw [if_pos hu, if_pos hl, if_pos hl]
      constructor
      · show (helperScroll s.m_scrollLower _ lower now).1 = _
        rw [helperScroll_fst, helperScroll_fst _ s.m_disp.upLo]
      · intro j h4 h8
        rw [if_pos hl]
        apply helperScroll_congr
        · intro k k1 k2
          exact helperScroll_outside _ _ upper now k (by simp [upper, lower] at *; omega)
        · simpa [lower] using h4
        · simpa [lower] using h8
    · rw [if_pos hu, if_neg hl, if_neg hl]
      refine ⟨rfl, fun j h4 h8 => ?_⟩
      rw [if_neg hl]
      exact helperScroll_outside _ _ upper now j (by simp [upper]; omega)
  · by_cases hl : s.m_scrollLower.delay ≠ 0
    · rw [if_neg hu, if_pos hl, if_pos hl]
      refine ⟨rfl, fun j h4 h8 => ?_⟩
      rw [if_pos hl]
    · rw [if_neg hu, if_neg hl, if_neg hl]
      refine ⟨rfl, fun j h4 h8 => ?_⟩
      rw [if_neg hl]

/-- The buffer after `scrollHelper`: four spaces in the row, the rest as before. -/
theorem scrollHelper_apply (str : List Int) (m : Nat → Int) (disp t left now j : Nat) :
    (scrollHelper str m disp t left now).2 j =
      if disp ≤ j ∧ j < disp + 4 then 32 else m j := by
  unfold scrollHelper
  dsimp only
  rw [foldl_update_range (fun _ => (32 : Int)) disp m 4 j]

/-! ## Auxiliary lemmas: operation sequences -/

theorem run_append (s : State) (xs ys : List Op) : run s (xs ++ ys) = run (run s xs) ys := by
  unfold run
  rw [List.foldl_append]

/-- The upper scroll record of the long scroll after `k` advancing refreshes: the
marker has advanced `k` times. -/
theorem scrollingLong_marker (k : Nat) (hk : k ≤ 255) :
    (run scrollingLong (advances k)).m_scrollUpper =
      { time := 101 * k, text := List.replicate 300 0x41, delay := 100, toLeft := 1,
        marker := k } := by
  induction k with
  | zero => rfl
  | succ k ih =>
    have ih2 := ih (by omega)
    have e : advances (k + 1) = advances k ++ [Op.refresh (101 * (k + 1))] := by
      unfold advances
      rw [List.range_succ, List.map_append]
      rfl
    rw [e, run_append]
    show (refresh (run scrollingLong (advances k)) (101 * (k + 1))).1.m_scrollUpper = _
    rw [(refresh_scroll_upper _ _).1, ih2]
    dsimp only
    rw [if_pos (show (100 : Nat) ≠ 0 by decide), helperScroll_fst]
    dsimp only
    have hdue : (101 * k + 100) % 2 ^ 32 < 101 * (k + 1) := by
      rw [Nat.mod_eq_of_lt (by omega)]
      omega
    rw [if_pos hdue]
    have hlen : (List.replicate 300 (0x41 : Int)).length = 300 := List.length_replicate _ _
    simp only [hlen]
    rw [if_pos (show (1 : Nat) ≠ 0 by decide), if_neg (by omega), Nat.mod_eq_of_lt (by omega)]

/-- What one call of `helperScroll` does to a row, by cases on the trigger. -/
theorem helperScroll_trigger (sc : scroll_t) (m : Nat → Int) (disp now : Nat) :
    ((sc.time + sc.delay) % 2 ^ 32 < now →
      (helperScroll sc m disp now).1 =
        { sc with
          time := now
          marker :=
            if sc.toLeft ≠ 0 then
              (if sc.text.length = sc.marker + 1 then 0 else (sc.marker + 1) % 2 ^ 8)
            else
              (if sc.marker = 0 then (sc.text.length + (2 ^ 8 - 1)) % 2 ^ 8
               else sc.marker - 1) } ∧
      (List.range 4).map (fun k => (helperScroll sc m disp now).2 (disp + k)) =
        (if sc.toLeft ≠ 0 then
          [m (disp + 1), m (disp + 2), m (disp + 3), charAt sc.text sc.marker]
         else [charAt sc.text sc.marker, m disp, m (disp + 1), m (disp + 2)])) ∧
    (¬ ((sc.time + sc.delay) % 2 ^ 32 < now) → helperScroll sc m disp now = (sc, m)) := by
  refine ⟨fun hd => ⟨?_, ?_⟩, fun hd => helperScroll_not_due sc m disp now hd⟩
  · rw [helperScroll_fst, if_pos hd]
  · have e : List.range 4 = [0, 1, 2, 3] := rfl
    rw [e]
    simp only [List.map_cons, List.map_nil]
    by_cases hl : sc.toLeft ≠ 0
    · rw [if_pos hl, helperScroll_left sc m disp now _ hd hl,
        helperScroll_left sc m disp now _ hd hl, helperScroll_left sc m disp now _ hd hl,
        helperScroll_left sc m disp now _ hd hl]
      rw [if_neg (by omega), if_pos (by omega), if_neg (by omega), if_pos (by omega),
        if_neg (by omega), if_pos (by omega), if_pos rfl]
    · rw [if_neg hl, helperScroll_right sc m disp now _ hd hl,
        helperScroll_right sc m disp now _ hd hl, helperScroll_right sc m disp now _ hd hl,
        helperScroll_right sc m disp now _ hd hl]
      rw [if_pos (by omega), if_neg (by omega), if_pos (by omega), if_neg (by omega),
        if_pos (by omega), if_neg (by omega), if_pos (by omega)]
      rfl

/-! ## Auxiliary lemmas: bounds-checked loads -/

/-- A bounds-checked load inside the array yields the byte the unchecked load yields. -/
theorem peekChecked_inside (table : List Nat) (i : Int) (h0 : 0 ≤ i)
    (h1 : i.toNat < table.length) : peekChecked table i = some (peek table i) := by
  unfold peekChecked peek
  rw [if_pos h0, if_pos h0, List.getElem?_eq_getElem h1, List.getD_eq_getElem _ _ h1]

/-! ## Auxiliary lemmas: the segment count and the scroll delays through operations -/

/-- An operation leaves the segment count as it is, unless it is a call of
`setSegmentsArraySize` with a size other than 0, which stores the size. -/
theorem apply_segmentSize (s : State) (op : Op) :
    (op.apply s).m_segmentSize = s.m_segmentSize ∨
    ∃ size, op = Op.setSegmentsArraySize size ∧ 0 < size ∧
      (op.apply s).m_segmentSize = size := by
  cases op with
  | begin pin table =>
    left
    show (Seg7Display.begin s pin table).2.m_segmentSize = _
    unfold Seg7Display.begin
    split_ifs <;> rfl
  | setSegmentsArraySize size =>
    by_cases h : size > 0
    · right
      refine ⟨size, rfl, h, ?_⟩
      show (Seg7Display.setSegmentsArraySize s size).2.m_segmentSize = _
      unfold Seg7Display.setSegmentsArraySize
      rw [if_pos h]
    · left
      show (Seg7Display.setSegmentsArraySize s size).2.m_segmentSize = _
      unfold Seg7Display.setSegmentsArraySize
      rw [if_neg h]
  | writeSegments txt => exact Or.inl rfl
  | writeUpper txt => exact Or.inl rfl
  | writeLower txt => exact Or.inl rfl
  | writeOneSegment seg ch now =>
    left
    show (Seg7Display.writeOneSegment s seg ch now).2.1.m_segmentSize = _
    unfold Seg7Display.writeOneSegment
    by_cases hr : seg > s.m_segmentSize ∨ seg = 0
    · rw [if_pos hr]
    · rw [if_neg hr]
      exact (refresh_frame
        { s with m_disp := { upLo := Function.update s.m_disp.upLo (seg - 1) ch } } now).2.1
  | readOneSegment seg => exact Or.inl rfl
  | refresh now => exact Or.inl (refresh_frame s now).2.1
  | scrollLowerEx str t left now => exact Or.inl rfl
  | scrollLower t left now => exact Or.inl rfl
  | scrollUpperEx str t left now => exact Or.inl rfl
  | scrollUpper t left now => exact Or.inl rfl
  | setDecimalPoints points => exact Or.inl rfl
  | setBlink digit on_ off t => exact Or.inl (setBlink_frame s digit on_ off t).2.1
  | stopBlink => exact Or.inl (stopBlink_frame s).2.1
  | stopScroll displays =>
    left
    show (Seg7Display.stopScroll s displays).m_segmentSize = _
    unfold Seg7Display.stopScroll
    dsimp only
    split_ifs <;> rfl

/-- A sequence of operations whose calls of `setSegmentsArraySize` ask for at most 8
digits keeps the segment count at most 8. -/
theorem run_segmentSize_le (ops : List Op) :
    ∀ (s : State), (∀ size, Op.setSegmentsArraySize size ∈ ops → size ≤ 8) →
    s.m_segmentSize ≤ 8 → (run s ops).m_segmentSize ≤ 8 := by
  induction ops with
  | nil => exact fun s _ hs => hs
  | cons op ops ih =>
    intro s hops hs
    refine ih (op.apply s) (fun size h => hops size (List.mem_cons_of_mem _ h)) ?_
    rcases apply_segmentSize s op with h | ⟨size, h0, -, h2⟩
    · rw [h]
      exact hs
    · rw [h2]
      exact hops size (h0 ▸ List.mem_cons_self _ _)

/-- The successor modulo `P`, from the remainder. -/
theorem succ_mod_step (n P : Nat) (hP : 0 < P) :
    (n + 1) % P = if n % P + 1 = P then 0 else n % P + 1 := by
  have hlt : n % P < P := Nat.mod_lt n hP
  rw [Nat.add_mod]
  by_cases h : n % P + 1 = P
  · rw [if_pos h]
    rcases Nat.lt_or_ge 1 P with h1 | h1
    · rw [Nat.mod_eq_of_lt h1, h, Nat.mod_self]
    · have hP1 : P = 1 := by omega
      subst hP1
      omega
  · rw [if_neg h]
    have h1 : 1 < P := by omega
    rw [Nat.mod_eq_of_lt h1, Nat.mod_eq_of_lt (by omega)]

/-- The marker update of a left scroll step counts modulo the text length, or modulo
256 when the text is longer than that. -/
theorem left_marker_step (L n : Nat) (hL : 0 < L) :
    (if L = n % min L 256 + 1 then 0 else (n % min L 256 + 1) % 2 ^ 8) =
      (n + 1) % min L 256 := by
  have hP : 0 < min L 256 := by omega
  have hlt : n % min L 256 < min L 256 := Nat.mod_lt n hP
  rw [succ_mod_step n (min L 256) hP]
  by_cases hc : L ≤ 256
  · have e : min L 256 = L := by omega
    rw [e] at hlt ⊢
    by_cases h : L = n % L + 1
    · rw [if_pos h, if_pos h.symm]
    · rw [if_neg h, if_neg (fun x => h x.symm), Nat.mod_eq_of_lt (by omega)]
  · have e : min L 256 = 256 := by omega
    rw [e] at hlt ⊢
    rw [if_neg (by omega)]
    by_cases h : n % 256 + 1 = 256
    · rw [if_pos h, h]
      rfl
    · rw [if_neg h, Nat.mod_eq_of_lt (by omega)]

/-- One due step of a left scroll whose marker has counted `n` steps and whose row
holds the last characters brought in: the marker has counted `n + 1` steps and the
row holds the characters of one step later. -/
theorem helperScroll_left_counted (sc : scroll_t) (m : Nat → Int) (disp now n : Nat)
    (hd : (sc.time + sc.delay) % 2 ^ 32 < now) (hl : sc.toLeft ≠ 0) (hL : sc.text ≠ [])
    (hmk : sc.marker = n % min sc.text.length 256)
    (hc : ∀ j, j < 4 → m (disp + j) =
      if 4 ≤ n + j then charAt sc.text ((n + j - 4) % min sc.text.length 256) else 32) :
    (helperScroll sc m disp now).1 =
      { sc with time := now, marker := (n + 1) % min sc.text.length 256 } ∧
    ∀ j, j < 4 → (helperScroll sc m disp now).2 (disp + j) =
      if 4 ≤ n + 1 + j then charAt sc.text ((n + 1 + j - 4) % min sc.text.length 256)
      else 32 := by
  have hpos : 0 < sc.text.length := List.length_pos.mpr hL
  constructor
  · rw [helperScroll_fst, if_pos hd, if_pos hl, hmk, left_marker_step _ n hpos]
  · intro j hj
    rw [helperScroll_left sc m disp now _ hd hl]
    by_cases h3 : j = 3
    · subst h3
      rw [if_pos rfl, if_pos (by omega), hmk]
      have e : n + 1 + 3 - 4 = n := by omega
      rw [e]
    · rw [if_neg (by omega), if_pos (by omega)]
      have e : disp + j + 1 = disp + (j + 1) := by omega
      rw [e, hc (j + 1) (by omega)]
      have e2 : n + 1 + j = n + (j + 1) := by omega
      rw [e2]

/-- Advancing refreshes of a left scroll on the upper row: each counts one step. -/
theorem left_scroll_run_upper (text : List Int) (delay left : Nat) (hL : text ≠ [])
    (hleft : left ≠ 0) :
    ∀ (ts : List Nat) (s : State) (n last : Nat),
    s.m_scrollUpper = { time := last, text := text, delay := delay, toLeft := left,
                        marker := n % min text.length 256 } →
    (∀ j, j < 4 → s.m_disp.upLo (upper + j) =
      if 4 ≤ n + j then charAt text ((n + j - 4) % min text.length 256) else 32) →
    advancing delay last ts →
    (run s (ts.map Op.refresh)).m_scrollUpper.marker = (n + ts.length) % min text.length 256 ∧
    ∀ j, j < 4 → (run s (ts.map Op.refresh)).m_disp.upLo (upper + j) =
      if 4 ≤ n + ts.length + j then
        charAt text ((n + ts.length + j - 4) % min text.length 256)
      else 32 := by
  intro ts
  induction ts with
  | nil =>
    intro s n last hs hc _
    refine ⟨?_, hc⟩
    show s.m_scrollUpper.marker = _
    rw [hs]
    rfl
  | cons t ts ih =>
    intro s n last hs hc hadv
    obtain ⟨hd0, hdue, hrest⟩ := hadv
    have e : run s ((t :: ts).map Op.refresh) = run (refresh s t).1 (ts.map Op.refresh) := rfl
    have hdelay : s.m_scrollUpper.delay ≠ 0 := by
      rw [hs]
      exact hd0
    obtain ⟨k1, k2⟩ := helperScroll_left_counted s.m_scrollUpper s.m_disp.upLo upper t n
      (by rw [hs]; exact hdue) (by rw [hs]; exact hleft) (by rw [hs]; exact hL)
      (by rw [hs]) (by rw [hs]; exact hc)
    obtain ⟨u1, u2⟩ := refresh_scroll_upper s t
    rw [if_pos hdelay, k1, hs] at u1
    have hcells : ∀ j, j < 4 → (refresh s t).1.m_disp.upLo (upper + j) =
        if 4 ≤ n + 1 + j then charAt text ((n + 1 + j - 4) % min text.length 256)
        else 32 := by
      intro j hj
      have hk := k2 j hj
      rw [hs] at hk
      rw [u2 (upper + j) (by unfold upper; omega), if_pos hdelay, hs]
      exact hk
    obtain ⟨r1, r2⟩ := ih (refresh s t).1 (n + 1) t u1 hcells hrest
    rw [e, List.length_cons]
    have e3 : n + (ts.length + 1) = n + 1 + ts.length := by omega
    rw [e3]
    exact ⟨r1, r2⟩

/-- Advancing refreshes of a left scroll on the lower row: each counts one step. -/
theorem left_scroll_run_lower (text : List Int) (delay left : Nat) (hL : text ≠ [])
    (hleft : left ≠ 0) :
    ∀ (ts : List Nat) (s : State) (n last : Nat),
    s.m_scrollLower = { time := last, text := text, delay := delay, toLeft := left,
                        marker := n % min text.length 256 } →
    (∀ j, j < 4 → s.m_disp.upLo (lower + j) =
      if 4 ≤ n + j then charAt text ((n + j - 4) % min text.length 256) else 32) →
    advancing delay last ts →
    (run s (ts.map Op.refresh)).m_scrollLower.marker = (n + ts.length) % min text.length 256 ∧
    ∀ j, j < 4 → (run s (ts.map Op.refresh)).m_disp.upLo (lower + j) =
      if 4 ≤ n + ts.length + j then
        charAt text ((n + ts.length + j - 4) % min text.length 256)
      else 32 := by
  intro ts
  induction ts with
  | nil =>
    intro s n last hs hc _
    refine ⟨?_, hc⟩
    show s.m_scrollLower.marker = _
    rw [hs]
    rfl
  | cons t ts ih =>
    intro s n last hs hc hadv
    obtain ⟨hd0, hdue, hrest⟩ := hadv
    have e : run s ((t :: ts).map Op.refresh) = run (refresh s t).1 (ts.map Op.refresh) := rfl
    have hdelay : s.m_scrollLower.delay ≠ 0 := by
      rw [hs]
      exact hd0
    obtain ⟨k1, k2⟩ := helperScroll_left_counted s.m_scrollLower s.m_disp.upLo lower t n
      (by rw [hs]; exact hdue) (by rw [hs]; exact hleft) (by rw [hs]; exact hL)
      (by rw [hs]) (by rw [hs]; exact hc)
    obtain ⟨u1, u2⟩ := refresh_scroll_lower s t
    rw [if_pos hdelay, k1, hs] at u1
    have hcells : ∀ j, j < 4 → (refresh s t).1.m_disp.upLo (lower + j) =
        if 4 ≤ n + 1 + j then charAt text ((n + 1 + j - 4) % min text.length 256)
        else 32 := by
      intro j hj
      have hk := k2 j hj
      rw [hs] at hk
      rw [u2 (lower + j) (by unfold lower; omega) (by unfold lower; omega), if_pos hdelay, hs]
      exact hk
    obtain ⟨r1, r2⟩ := ih (refresh s t).1 (n + 1) t u1 hcells hrest
    rw [e, List.length_cons]
    have e3 : n + (ts.length + 1) = n + 1 + ts.length := by omega
    rw [e3]
    exact ⟨r1, r2⟩

/-- A sequence of operations that ends with a refresh. -/
theorem run_snoc_refresh (s : State) (xs : List Op) (t : Nat) :
    run s (xs ++ [Op.refresh t]) = (refresh (run s xs) t).1 := by
  rw [run_append]
  rfl

/-- The upper scroll record of the long scroll after 256 advancing refreshes: the
marker is back at 0. -/
theorem scrollingLong_wrapped :
    (run scrollingLong (advances 256)).m_scrollUpper =
      { time := 25856, text := List.replicate 300 0x41, delay := 100, toLeft := 1,
        marker := 0 } := by
  have h := scrollingLong_marker 255 (le_refl _)
  have hlen : (List.replicate 300 (0x41 : Int)).length = 300 := List.length_replicate _ _
  have e : advances 256 = advances 255 ++ [Op.refresh 25856] := by
    unfold advances
    rw [List.range_succ, List.map_append]
    rfl
  have hup := (refresh_scroll_upper (run scrollingLong (advances 255)) 25856).1
  rw [h] at hup
  rw [if_pos (show (100 : Nat) ≠ 0 by decide), helperScroll_fst] at hup
  dsimp only at hup
  rw [if_pos (by decide), if_pos (show (1 : Nat) ≠ 0 by decide), hlen, if_neg (by decide)]
    at hup
  rw [e, run_snoc_refresh, hup]
  rfl

/-! ## The claims -/

/-- C1, evaluated where the code departs from it: `ASCII_NUM_TAB` is in the documented
format with first code `0x30` and last code `0x39`, the pattern stored for the digit
zero (code `0x30`, offset `0x30 - first + 2`) is `0xFC`, and `asciiTo7seg` returns `0`
for that character, because its range test is `ch > start`. -/
theorem asciiTo7seg_num_tab_zero_digit :
    peek ASCII_NUM_TAB 0 = 0x30 ∧ peek ASCII_NUM_TAB 1 = 0x39 ∧
    ASCII_NUM_TAB.length = 0x39 - 0x30 + 3 ∧
    peek ASCII_NUM_TAB (0x30 - (peek ASCII_NUM_TAB 0 : Int) + 2) = 0xFC ∧
    asciiTo7seg ASCII_NUM_TAB 0x30 = 0 := by
  decide

/-- C2: for every loaded glyph table and every character code `c` with `0 ≤ c < 32`
that the declared range of the table does not contain, `asciiTo7seg` returns
`SPECIAL_CHARS[c]`; and code `0` decodes to `0` whatever the table. -/
theorem asciiTo7seg_control_code :
    (∀ (table : List Nat) (c : Int), 0 ≤ c → c < 32 →
      ¬ ((peek table 0 : Int) ≤ c ∧ c ≤ (peek table 1 : Int)) →
      asciiTo7seg table c = peek SPECIAL_CHARS c) ∧
    (∀ table : List Nat, asciiTo7seg table 0 = 0) := by
  constructor
  · intro table c h0 h32 hout
    rw [asciiTo7seg_outside table c (fun h => hout ⟨le_of_lt h.1, h.2⟩), if_pos ⟨h0, h32⟩]
  · intro table
    rw [asciiTo7seg_outside table 0 (fun h => absurd h.1 (by omega))]
    decide

/-- With the digit table loaded, code `0x0B` decodes to the right bar with roof, and
with the full table loaded code `0` decodes to `0`. -/
theorem asciiTo7seg_control_code_witness :
    asciiTo7seg ASCII_NUM_TAB 0x0B = 0xE0 ∧ asciiTo7seg ASCII_FULL_TAB 0 = 0 :=
  ⟨(asciiTo7seg_control_code.1 ASCII_NUM_TAB 0x0B (by decide) (by decide) (by decide)).trans
      (by decide),
   asciiTo7seg_control_code.2 ASCII_FULL_TAB⟩

/-- C3: for every loaded glyph table, a character outside the declared range
`[first, last]` of the table that is not a control code (`c ≥ 32`) decodes to `0`. -/
theorem asciiTo7seg_unmapped (table : List Nat) (c : Int)
    (hout : ¬ ((peek table 0 : Int) ≤ c ∧ c ≤ (peek table 1 : Int))) (h32 : 32 ≤ c) :
    asciiTo7seg table c = 0 := by
  rw [asciiTo7seg_outside table c (fun h => hout ⟨le_of_lt h.1, h.2⟩),
    if_neg (fun h => absurd h.2 (by omega))]

/-- The letter A (code `0x41`) is blank under the digit table. -/
theorem asciiTo7seg_unmapped_witness :
    asciiTo7seg ASCII_NUM_TAB 0x41 = 0 :=
  asciiTo7seg_unmapped ASCII_NUM_TAB 0x41 (by decide) (by decide)

/-- C4: for every state with segment count `n ≤ 8` and every digit `i < n`, the word a
refresh hands to the bus for digit `i` is `((asciiTo7seg(cell[i]) | d) << 8) | (0x80 >> i)`
when the digit is visible after the blink update of this refresh, with `d = 1` when bit
`0x80 >> i` of the decimal-point mask is set and `0` otherwise, and is `0x80 >> i` when
the digit is not visible.  The cell is read after the scroll part of the same refresh;
with both scrolls inactive that is the buffer the refresh started from. -/
theorem refresh_word (s : State) (now i : Nat) (_hn : s.m_segmentSize ≤ 8)
    (hi : i < s.m_segmentSize) :
    (transfers (refresh s now).2)[i]? = some
      (if (refresh s now).1.m_blink.isOn i ≠ 0 then
        ((asciiTo7seg s.m_ascii_table ((refresh s now).1.m_disp.upLo i) |||
          (if (s.m_dps &&& (0x80 >>> i)) ≠ 0 then 1 else 0)) <<< 8) ||| (0x80 >>> i)
       else 0x80 >>> i) ∧
    (s.m_scrollUpper.delay = 0 → s.m_scrollLower.delay = 0 →
      (refresh s now).1.m_disp = s.m_disp) := by
  constructor
  · exact refresh_transfers_get s now i hi
  · intro hu hl
    rw [(refresh_trace s now).1, refreshScroll_inactive s now hu hl]

/-- Example 1 with the decimal point of digit 2 set: the word of digit 2 carries the
pattern of the letter t with bit 0 set, and the select bit `0x20`. -/
theorem refresh_word_witness :
    (transfers (refresh (setDecimalPoints (example1 zeroStorage) 0x20) 7).2)[2]?
      = some 0x1F20 :=
  (refresh_word (setDecimalPoints (example1 zeroStorage) 0x20) 7 2
    (by decide) (by decide)).1.trans (by decide)

/-- C5: for every state with segment count `n ≤ 8`, one refresh makes exactly `n` bus
transfers, the trace is the sequence of these transfers each framed by slave select
low before and slave select high after, and the low byte of the `i`-th word is
`0x80 >> i`, the single bit `7 - i`. -/
theorem refresh_frames (s : State) (now : Nat) (hn : s.m_segmentSize ≤ 8) :
    (transfers (refresh s now).2).length = s.m_segmentSize ∧
    (refresh s now).2 = (transfers (refresh s now).2).flatMap (frame s.m_slaveSelectPin) ∧
    ∀ i, i < s.m_segmentSize →
      ∃ w, (transfers (refresh s now).2)[i]? = some w ∧
        w % 256 = 0x80 >>> i ∧ 0x80 >>> i = 2 ^ (7 - i) := by
  have ht := refresh_transfers s now
  refine ⟨?_, ?_, ?_⟩
  · rw [ht]; simp
  · rw [ht, ← flatMap_frame_map]
    exact (refresh_trace s now).2
  · intro i hi
    obtain ⟨hlt, hpow⟩ := digit_select_one_hot i (by omega)
    refine ⟨_, refresh_transfers_get s now i hi, ?_, hpow⟩
    by_cases hv : (refresh s now).1.m_blink.isOn i ≠ 0
    · rw [if_pos hv]
      exact low_byte_of_packet _ _ hlt
    · rw [if_neg hv]
      exact Nat.mod_eq_of_lt hlt

/-- The trace of a refresh of Example 1: eight framed transfers on pin 10. -/
theorem refresh_frames_witness :
    (refresh (example1 zeroStorage) 7).2 =
      [0xFC80, 0x1A40, 0x1E20, 0x3A10, 0xCE08, 0xFA04, 0x0A02, 0x1E01].flatMap (frame 10) :=
  (refresh_frames (example1 zeroStorage) 7 (by decide)).2.1.trans (by decide)

/-- C6: after construction (on any storage), `begin(10, ASCII_FULL_TAB)`,
`setSegmentsArraySize(8)` and `writeSegments` of the text Octopart, one refresh at any
clock reading transmits exactly the eight words `0xFC80, 0x1A40, 0x1E20, 0x3A10,
0xCE08, 0xFA04, 0x0A02, 0x1E01`, each framed on pin 10; the high byte of word `i` is
the `ASCII_FULL_TAB` pattern of letter `i` with the decimal-point bit clear and the low
byte is `0x80 >> i`. -/
theorem example1_refresh (raw : State) (now : Nat) :
    (refresh (example1 raw) now).2 =
      [0xFC80, 0x1A40, 0x1E20, 0x3A10, 0xCE08, 0xFA04, 0x0A02, 0x1E01].flatMap (frame 10) ∧
    transfers (refresh (example1 raw) now).2 =
      [0xFC80, 0x1A40, 0x1E20, 0x3A10, 0xCE08, 0xFA04, 0x0A02, 0x1E01] ∧
    [0xFC80, 0x1A40, 0x1E20, 0x3A10, 0xCE08, 0xFA04, 0x0A02, 0x1E01] =
      (List.range 8).map (fun i =>
        (peek ASCII_FULL_TAB (charAt Octopart i - 0x20 + 2) <<< 8) ||| (0x80 >>> i)) := by
  have hidle : ∀ i, i < (example1 raw).m_segmentSize →
      (example1 raw).m_blink.nextToggle i = 0 := by
    intro i hi
    have hi8 : i < 8 := hi
    interval_cases i <;> rfl
  have hs : (refresh (example1 raw) now).1 = example1 raw := by
    rw [refresh_idle _ now hidle]
    exact refreshScroll_inactive _ now rfl rfl
  obtain ⟨-, h2⟩ := refresh_trace (example1 raw) now
  rw [hs] at h2
  have hon : ∀ i, i < 8 → (example1 raw).m_blink.isOn i = 1 := by
    intro i hi
    interval_cases i <;> rfl
  have hcell : ∀ i, i < 8 → (example1 raw).m_disp.upLo i = charAt Octopart i := by
    intro i hi
    interval_cases i <;> rfl
  have hout : (refresh (example1 raw) now).2 =
      [0xFC80, 0x1A40, 0x1E20, 0x3A10, 0xCE08, 0xFA04, 0x0A02, 0x1E01].flatMap (frame 10) := by
    rw [h2]
    have e8 : (example1 raw).m_segmentSize = 8 := rfl
    have epin : (example1 raw).m_slaveSelectPin = 10 := rfl
    have etab : (example1 raw).m_ascii_table = ASCII_FULL_TAB := rfl
    have edps : (example1 raw).m_dps = 0 := rfl
    rw [e8, epin, etab, edps]
    have hcongr : (List.range 8).flatMap (fun i => frame 10
          (if (example1 raw).m_blink.isOn i ≠ 0 then
            ((asciiTo7seg ASCII_FULL_TAB ((example1 raw).m_disp.upLo i) |||
              (if (0 &&& (0x80 >>> i)) ≠ 0 then 1 else 0)) <<< 8) ||| (0x80 >>> i)
           else 0x80 >>> i)) =
        (List.range 8).flatMap (fun i => frame 10
          (((asciiTo7seg ASCII_FULL_TAB (charAt Octopart i) |||
              (if (0 &&& (0x80 >>> i)) ≠ 0 then 1 else 0)) <<< 8) ||| (0x80 >>> i))) := by
      apply List.flatMap_congr
      intro i hi
      have hi8 : i < 8 := by simpa using hi
      rw [hon i hi8, hcell i hi8, if_pos (by decide)]
    rw [hcongr]
    decide
  refine ⟨hout, ?_, by decide⟩
  rw [hout]
  decide

/-- C7, evaluated where the code departs from it: on the display of Example 1, whose
cells hold O c t o p a r t, `writeUpper` of the two-character text a b leaves
a b t space space a r t.  Cell 2, the first cell after the text, keeps its character,
and cell 4, the first cell of the lower row, is overwritten with a space: the padding
loop stores at the index it has already incremented. -/
theorem writeUpper_short_text_leaves_cell :
    (List.range 8).map (example1 zeroStorage).m_disp.upLo
      = [0x4F, 0x63, 0x74, 0x6F, 0x70, 0x61, 0x72, 0x74] ∧
    (List.range 8).map (writeUpper (example1 zeroStorage) [0x61, 0x62]).m_disp.upLo
      = [0x61, 0x62, 0x74, 0x20, 0x20, 0x61, 0x72, 0x74] := by
  decide

/-- C8: for `writeSegments` (region: cells 0..7) and for `writeUpper` and `writeLower`
(regions: cells 0..3 and 4..7), a text at least as long as the region leaves in the
region exactly the first 8, respectively 4, characters of the text in order; no
cell outside the region changes, and no other member of the object changes (the
operations return nothing, so there is no error to report). -/
theorem write_long_text_truncates (s : State) (txt : List Int) :
    (8 ≤ txt.length →
      (List.range 8).map (fun k => (writeSegments s txt).m_disp.upLo k) = txt.take 8 ∧
      (∀ j, 8 ≤ j → (writeSegments s txt).m_disp.upLo j = s.m_disp.upLo j) ∧
      { writeSegments s txt with m_disp := s.m_disp } = s) ∧
    (4 ≤ txt.length →
      (List.range 4).map (fun k => (writeUpper s txt).m_disp.upLo k) = txt.take 4 ∧
      (∀ j, 4 ≤ j → (writeUpper s txt).m_disp.upLo j = s.m_disp.upLo j) ∧
      { writeUpper s txt with m_disp := s.m_disp } = s) ∧
    (4 ≤ txt.length →
      (List.range 4).map (fun k => (writeLower s txt).m_disp.upLo (4 + k)) = txt.take 4 ∧
      (∀ j, j < 4 ∨ 8 ≤ j → (writeLower s txt).m_disp.upLo j = s.m_disp.upLo j) ∧
      { writeLower s txt with m_disp := s.m_disp } = s) := by
  refine ⟨fun h => ⟨?_, ?_, rfl⟩, fun h => ⟨?_, ?_, rfl⟩, fun h => ⟨?_, ?_, rfl⟩⟩
  · have := (helperWrite_long txt s.m_disp.upLo 0 8 h).1
    simpa [writeSegments] using this
  · intro j hj
    exact (helperWrite_long txt s.m_disp.upLo 0 8 h).2 j (by omega)
  · have := (helperWrite_long txt s.m_disp.upLo 0 4 h).1
    simpa [writeUpper, upper] using this
  · intro j hj
    exact (helperWrite_long txt s.m_disp.upLo 0 4 h).2 j (by omega)
  · exact (helperWrite_long txt s.m_disp.upLo 4 4 h).1
  · intro j hj
    exact (helperWrite_long txt s.m_disp.upLo 4 4 h).2 j (by omega)

/-- Texts of ten, five and four digits written to the whole display, the upper row
and the lower row. -/
theorem write_long_text_truncates_witness :
    (List.range 8).map (fun k => (writeSegments (example1 zeroStorage)
        [0x31, 0x32, 0x33, 0x34, 0x35, 0x36, 0x37, 0x38, 0x39, 0x30]).m_disp.upLo k)
      = [0x31, 0x32, 0x33, 0x34, 0x35, 0x36, 0x37, 0x38] ∧
    (List.range 4).map (fun k => (writeUpper (example1 zeroStorage)
        [0x31, 0x32, 0x33, 0x34, 0x35]).m_disp.upLo k) = [0x31, 0x32, 0x33, 0x34] ∧
    (List.range 4).map (fun k => (writeLower (example1 zeroStorage)
        [0x31, 0x32, 0x33, 0x34]).m_disp.upLo (4 + k)) = [0x31, 0x32, 0x33, 0x34] :=
  ⟨((write_long_text_truncates (example1 zeroStorage)
      [0x31, 0x32, 0x33, 0x34, 0x35, 0x36, 0x37, 0x38, 0x39, 0x30]).1 (by decide)).1,
   ((write_long_text_truncates (example1 zeroStorage)
      [0x31, 0x32, 0x33, 0x34, 0x35]).2.1 (by decide)).1,
   ((write_long_text_truncates (example1 zeroStorage)
      [0x31, 0x32, 0x33, 0x34]).2.2 (by decide)).1⟩

/-- C9: `writeOneSegment(seg, ch)` returns `ERROR_CODE_OUT_OF_RANGE` exactly when
`seg == 0` or `seg` exceeds the configured segment count; in that case no member of
the object changes and nothing goes to the bus; otherwise it returns `ALL_OK`. -/
theorem writeOneSegment_range_check (s : State) (seg : Nat) (ch : Int) (now : Nat) :
    ((writeOneSegment s seg ch now).1 = ERROR_CODE_OUT_OF_RANGE ↔
      (seg = 0 ∨ seg > s.m_segmentSize)) ∧
    ((seg = 0 ∨ seg > s.m_segmentSize) → (writeOneSegment s seg ch now).2 = (s, [])) ∧
    (¬ (seg = 0 ∨ seg > s.m_segmentSize) → (writeOneSegment s seg ch now).1 = ALL_OK) := by
  unfold writeOneSegment
  by_cases h : seg > s.m_segmentSize ∨ seg = 0
  · rw [if_pos h]
    exact ⟨⟨fun _ => h.symm, fun _ => rfl⟩, fun _ => rfl, fun hc => absurd h.symm hc⟩
  · rw [if_neg h]
    refine ⟨⟨fun hc => ?_, fun hc => absurd hc.symm h⟩, fun hc => absurd hc.symm h, fun _ => rfl⟩
    have hne : ALL_OK ≠ ERROR_CODE_OUT_OF_RANGE := by decide
    exact absurd hc hne

/-- On the eight-digit display of Example 1, digits 0 and 9 are refused and digit 8
is accepted. -/
theorem writeOneSegment_range_check_witness :
    (writeOneSegment (example1 zeroStorage) 0 0x41 7).1 = ERROR_CODE_OUT_OF_RANGE ∧
    (writeOneSegment (example1 zeroStorage) 9 0x41 7).1 = ERROR_CODE_OUT_OF_RANGE ∧
    (writeOneSegment (example1 zeroStorage) 8 0x41 7).1 = ALL_OK :=
  ⟨(writeOneSegment_range_check (example1 zeroStorage) 0 0x41 7).1.2 (by decide),
   (writeOneSegment_range_check (example1 zeroStorage) 9 0x41 7).1.2 (by decide),
   (writeOneSegment_range_check (example1 zeroStorage) 8 0x41 7).2.2 (by decide)⟩

/-- C10 as stated fails.  With a left scroll of the upper row started at clock reading
0 with delay 100, `writeOneSegment(1, x)` at clock reading 200 returns `ALL_OK`, its
refresh shifts the row, and `readOneSegment(0)` returns `ALL_OK` with a space instead
of the letter x (`0x78`).  And after `setSegmentsArraySize(10)`, which is accepted,
`writeOneSegment(10, x)` returns `ALL_OK` while `readOneSegment(9)` returns
`ERROR_CODE_OUT_OF_RANGE`. -/
theorem round_trip_broken_by_scroll :
    (writeOneSegment scrollingUpper 1 0x78 200).1 = ALL_OK ∧
    readOneSegment (writeOneSegment scrollingUpper 1 0x78 200).2.1 0 = (ALL_OK, 0x20) ∧
    readOneSegment (writeOneSegment scrollingUpper 1 0x78 200).2.1 0 ≠ (ALL_OK, 0x78) ∧
    (setSegmentsArraySize (example1 zeroStorage) 10).1 = ALL_OK ∧
    (writeOneSegment tenSegments 10 0x78 0).1 = ALL_OK ∧
    readOneSegment (writeOneSegment tenSegments 10 0x78 0).2.1 9
      = (ERROR_CODE_OUT_OF_RANGE, 0) := by
  decide

/-- C10 amended: for every state with segment count at most 8, every index `i` with
`1 ≤ i ≤` segment count and every character `c`, if at the clock reading of the write
no scroll step is due on the row that holds cell `i - 1` (the delay of that row is 0,
or its `time + delay` is not below the clock reading), then `writeOneSegment(i, c)`
followed by `readOneSegment(i - 1, out)` returns `ALL_OK` from both calls and yields
`out == c`. -/
theorem write_read_round_trip (s : State) (i : Nat) (c : Int) (now : Nat)
    (hn : s.m_segmentSize ≤ 8) (h1 : 1 ≤ i) (hi : i ≤ s.m_segmentSize)
    (hu : i ≤ 4 → s.m_scrollUpper.delay = 0 ∨
      ¬ ((s.m_scrollUpper.time + s.m_scrollUpper.delay) % 2 ^ 32 < now))
    (hl : 5 ≤ i → s.m_scrollLower.delay = 0 ∨
      ¬ ((s.m_scrollLower.time + s.m_scrollLower.delay) % 2 ^ 32 < now)) :
    (writeOneSegment s i c now).1 = ALL_OK ∧
    readOneSegment (writeOneSegment s i c now).2.1 (i - 1) = (ALL_OK, c) := by
  have hr : ¬ (i > s.m_segmentSize ∨ i = 0) := by omega
  have hcell := refreshScroll_cell
    { s with m_disp := { upLo := Function.update s.m_disp.upLo (i - 1) c } } now (i - 1)
    (fun _ => hu (by omega)) (fun h _ => hl (by omega))
  unfold writeOneSegment
  rw [if_neg hr]
  refine ⟨rfl, ?_⟩
  dsimp only
  unfold readOneSegment
  rw [if_neg (by omega)]
  congr 1
  rw [(refresh_trace _ now).1, hcell]
  exact Function.update_same _ _ _

/-- The same scrolling display written at clock reading 50, before the scroll step
is due: the letter x is read back. -/
theorem write_read_round_trip_witness :
    (writeOneSegment scrollingUpper 1 0x78 50).1 = ALL_OK ∧
    readOneSegment (writeOneSegment scrollingUpper 1 0x78 50).2.1 (1 - 1) = (ALL_OK, 0x78) :=
  write_read_round_trip scrollingUpper 1 0x78 50 (by decide) (by decide) (by decide)
    (fun _ => Or.inr (by decide)) (fun h => absurd h (by decide))

/-- C11, evaluated where the code departs from it: the guard of `readOneSegment` is
`seg > 8`, so for `seg = 8`, which is outside the text buffer `upLo[8]`, the call
returns `ALL_OK` with the byte that follows the buffer instead of
`ERROR_CODE_OUT_OF_RANGE` with NUL.  On the ten-digit display after
`writeOneSegment(9, O)` the value read back from outside the buffer is the letter O. -/
theorem readOneSegment_past_buffer :
    (∀ s : State, readOneSegment s 8 = (ALL_OK, s.m_disp.upLo 8)) ∧
    readOneSegment ninthWritten 8 = (ALL_OK, 0x4F) ∧
    readOneSegment ninthWritten 8 ≠ (ERROR_CODE_OUT_OF_RANGE, 0) :=
  ⟨fun _ => rfl, by decide, by decide⟩

/-- C12: a freshly constructed display has segment count 1; `setSegmentsArraySize(0)`
returns `ERROR_CODE_TO_FEW_SEGMENTS` and changes nothing; for every size in `1..8`
`setSegmentsArraySize` returns `ALL_OK` and sets the segment count to that size,
changing no other member. -/
theorem setSegmentsArraySize_contract :
    (∀ raw : State, (Seg7Display raw).m_segmentSize = 1) ∧
    (∀ s : State, setSegmentsArraySize s 0 = (ERROR_CODE_TO_FEW_SEGMENTS, s)) ∧
    (∀ (s : State) (size : Nat), 1 ≤ size → size ≤ 8 →
      setSegmentsArraySize s size = (ALL_OK, { s with m_segmentSize := size })) := by
  refine ⟨fun _ => rfl, fun _ => rfl, fun s size h1 _ => ?_⟩
  unfold setSegmentsArraySize
  rw [if_pos (by omega)]

/-- A fresh display set to eight digits, and a request of zero digits on it. -/
theorem setSegmentsArraySize_contract_witness :
    (setSegmentsArraySize (Seg7Display zeroStorage) 8).1 = ALL_OK ∧
    (setSegmentsArraySize (Seg7Display zeroStorage) 8).2.m_segmentSize = 8 ∧
    (setSegmentsArraySize (Seg7Display zeroStorage) 0).1 = ERROR_CODE_TO_FEW_SEGMENTS :=
  ⟨congrArg Prod.fst
      (setSegmentsArraySize_contract.2.2 (Seg7Display zeroStorage) 8 (by decide) (by decide)),
   congrArg (fun r => r.2.m_segmentSize)
      (setSegmentsArraySize_contract.2.2 (Seg7Display zeroStorage) 8 (by decide) (by decide)),
   congrArg Prod.fst (setSegmentsArraySize_contract.2.1 (Seg7Display zeroStorage))⟩

/-- C13: `begin(pin, table)` returns `ERROR_CODE_INVALID_SS_PIN` exactly when
`pin > 10`, and then leaves the stored pin, the stored table and every other member
as they were; for every `pin ≤ 10` it returns `ALL_OK` and stores the pin and the
table, changing no other member. -/
theorem begin_contract (s : State) (pin : Nat) (table : List Nat) :
    ((begin s pin table).1 = ERROR_CODE_INVALID_SS_PIN ↔ pin > 10) ∧
    (pin > 10 → (begin s pin table).2 = s) ∧
    (pin ≤ 10 → begin s pin table =
      (ALL_OK, { s with m_slaveSelectPin := pin, m_ascii_table := table })) := by
  unfold begin
  by_cases h : pin > 10
  · rw [if_pos h]
    exact ⟨⟨fun _ => h, fun _ => rfl⟩, fun _ => rfl, fun hc => absurd h (by omega)⟩
  · rw [if_neg h]
    have hne : ALL_OK ≠ ERROR_CODE_INVALID_SS_PIN := by decide
    exact ⟨⟨fun hc => absurd hc hne, fun hc => absurd hc h⟩, fun hc => absurd hc h, fun _ => rfl⟩

/-- On a fresh display pin 11 is refused and pin 10 with the digit table is stored. -/
theorem begin_contract_witness :
    (begin (Seg7Display zeroStorage) 11 ASCII_NUM_TAB).1 = ERROR_CODE_INVALID_SS_PIN ∧
    (begin (Seg7Display zeroStorage) 10 ASCII_NUM_TAB).1 = ALL_OK ∧
    (begin (Seg7Display zeroStorage) 10 ASCII_NUM_TAB).2.m_ascii_table = ASCII_NUM_TAB :=
  ⟨(begin_contract (Seg7Display zeroStorage) 11 ASCII_NUM_TAB).1.2 (by decide),
   congrArg Prod.fst
     ((begin_contract (Seg7Display zeroStorage) 10 ASCII_NUM_TAB).2.2 (by decide)),
   congrArg (fun r => r.2.m_ascii_table)
     ((begin_contract (Seg7Display zeroStorage) 10 ASCII_NUM_TAB).2.2 (by decide))⟩

/-- C14: for every mask, on time and off time, `setBlink` sets for every digit
`i` in `0..7` whose bit `0x80 >> i` is set in the mask `on[i]`, `off[i]`, `isOn[i] = 0`
and `nextToggle[i]` = the clock reading it took; for every digit whose bit is clear
the four blink fields are unchanged; and the display buffer, the decimal-point mask,
the segment count, both scroll records and every other member outside the blink
record are unchanged. -/
theorem setBlink_contract (s : State) (digit on_ off t : Nat) :
    (∀ i, i < 8 → ((0x80 >>> i) &&& digit) ≠ 0 →
      (setBlink s digit on_ off t).m_blink.on_ i = on_ ∧
      (setBlink s digit on_ off t).m_blink.off i = off ∧
      (setBlink s digit on_ off t).m_blink.isOn i = 0 ∧
      (setBlink s digit on_ off t).m_blink.nextToggle i = t) ∧
    (∀ i, i < 8 → ((0x80 >>> i) &&& digit) = 0 →
      (setBlink s digit on_ off t).m_blink.on_ i = s.m_blink.on_ i ∧
      (setBlink s digit on_ off t).m_blink.off i = s.m_blink.off i ∧
      (setBlink s digit on_ off t).m_blink.isOn i = s.m_blink.isOn i ∧
      (setBlink s digit on_ off t).m_blink.nextToggle i = s.m_blink.nextToggle i) ∧
    (setBlink s digit on_ off t).m_disp = s.m_disp ∧
    (setBlink s digit on_ off t).m_dps = s.m_dps ∧
    (setBlink s digit on_ off t).m_segmentSize = s.m_segmentSize ∧
    (setBlink s digit on_ off t).m_scrollUpper = s.m_scrollUpper ∧
    (setBlink s digit on_ off t).m_scrollLower = s.m_scrollLower ∧
    { setBlink s digit on_ off t with m_blink := s.m_blink } = s := by
  obtain ⟨h1, h2⟩ := setBlink_apply s digit on_ off t
  refine ⟨fun i hi hb => ?_, fun i hi hb => ?_, ?_, ?_, ?_, ?_, ?_, h1⟩
  · obtain ⟨a1, a2, a3, a4⟩ := h2 i
    rw [a1, a2, a3, a4, if_pos ⟨hi, hb⟩, if_pos ⟨hi, hb⟩, if_pos ⟨hi, hb⟩, if_pos ⟨hi, hb⟩]
    exact ⟨rfl, rfl, rfl, rfl⟩
  · obtain ⟨a1, a2, a3, a4⟩ := h2 i
    have hn : ¬ (i < 8 ∧ ((0x80 >>> i) &&& digit) ≠ 0) := fun hc => hc.2 hb
    rw [a1, a2, a3, a4, if_neg hn, if_neg hn, if_neg hn, if_neg hn]
    exact ⟨rfl, rfl, rfl, rfl⟩
  · have e := congrArg State.m_disp h1
    exact e
  · have e := congrArg State.m_dps h1
    exact e
  · have e := congrArg State.m_segmentSize h1
    exact e
  · have e := congrArg State.m_scrollUpper h1
    exact e
  · have e := congrArg State.m_scrollLower h1
    exact e

/-- Example 1 with the mask `0x90`: digits 0 and 3 are set up, digit 1 is not. -/
theorem setBlink_contract_witness :
    (setBlink (example1 zeroStorage) 0x90 500 200 100).m_blink.nextToggle 3 = 100 ∧
    (setBlink (example1 zeroStorage) 0x90 500 200 100).m_blink.isOn 0 = 0 ∧
    (setBlink (example1 zeroStorage) 0x90 500 200 100).m_blink.isOn 1
      = (example1 zeroStorage).m_blink.isOn 1 :=
  ⟨((setBlink_contract (example1 zeroStorage) 0x90 500 200 100).1 3
      (by decide) (by decide)).2.2.2,
   ((setBlink_contract (example1 zeroStorage) 0x90 500 200 100).1 0
      (by decide) (by decide)).2.2.1,
   ((setBlink_contract (example1 zeroStorage) 0x90 500 200 100).2.1 1
      (by decide) (by decide)).2.2.1⟩

/-- C15 as stated fails.  On Example 1 after `setBlink(0x80, 500, 200)` read the clock
at 100, digit 0 is invisible with deadline 100; a refresh at clock reading 100, when the
deadline has been reached, does not toggle it.  A refresh at 150 makes it visible with
deadline 650, and a refresh at 650, which is 500 after it became visible, leaves it
visible.  And a refresh at `2 ^ 32 - 100` stores the deadline 400, the sum reduced
modulo `2 ^ 32`. -/
theorem blink_deadline_reached_not_toggled :
    blinkingFirst.m_blink.isOn 0 = 0 ∧
    blinkingFirst.m_blink.nextToggle 0 = 100 ∧
    (refresh blinkingFirst 100).1.m_blink.isOn 0 = 0 ∧
    (refresh blinkingFirst 100).1.m_blink.nextToggle 0 = 100 ∧
    (refresh blinkingFirst 150).1.m_blink.isOn 0 = 1 ∧
    (refresh blinkingFirst 150).1.m_blink.nextToggle 0 = 650 ∧
    (refresh (refresh blinkingFirst 150).1 650).1.m_blink.isOn 0 = 1 ∧
    (refresh blinkingFirst 4294967196).1.m_blink.nextToggle 0 = 400 := by
  decide

/-- C15 amended: for every digit `i` below a segment count of at most 8, a refresh at
clock reading `now` toggles `isOn[i]` exactly when the digit has an active deadline strictly
below the clock reading (`nextToggle[i] != 0` and `nextToggle[i] < now`), and then sets
`nextToggle[i]` to `now + on[i]` if the digit became visible and to `now + off[i]` if it
became invisible, both sums reduced modulo `2 ^ 32`; otherwise `isOn[i]` and
`nextToggle[i]` are unchanged.  With on = 500 and off = 200 a visible digit whose
deadline is `T + 500` is invisible after a refresh later than `T + 500`, and an
invisible digit whose deadline is `U + 200` is visible after a refresh later than
`U + 200`. -/
theorem refresh_blink_step (s : State) (now i : Nat) (_hn : s.m_segmentSize ≤ 8)
    (hi : i < s.m_segmentSize) :
    (s.m_blink.nextToggle i ≠ 0 ∧ s.m_blink.nextToggle i < now →
      (refresh s now).1.m_blink.isOn i = (if s.m_blink.isOn i ≠ 0 then 0 else 1) ∧
      (refresh s now).1.m_blink.nextToggle i =
        (if (refresh s now).1.m_blink.isOn i ≠ 0 then (s.m_blink.on_ i + now) % 2 ^ 32
         else (s.m_blink.off i + now) % 2 ^ 32)) ∧
    (¬ (s.m_blink.nextToggle i ≠ 0 ∧ s.m_blink.nextToggle i < now) →
      (refresh s now).1.m_blink.isOn i = s.m_blink.isOn i ∧
      (refresh s now).1.m_blink.nextToggle i = s.m_blink.nextToggle i) ∧
    (s.m_blink.on_ i = 500 → s.m_blink.off i = 200 →
      (∀ T, s.m_blink.isOn i ≠ 0 → s.m_blink.nextToggle i = T + 500 → T + 500 < now →
        (refresh s now).1.m_blink.isOn i = 0 ∧
        (refresh s now).1.m_blink.nextToggle i = (200 + now) % 2 ^ 32) ∧
      (∀ U, s.m_blink.isOn i = 0 → s.m_blink.nextToggle i = U + 200 → U + 200 < now →
        (refresh s now).1.m_blink.isOn i = 1 ∧
        (refresh s now).1.m_blink.nextToggle i = (500 + now) % 2 ^ 32)) := by
  obtain ⟨-, -, h⟩ := refresh_blink s now
  obtain ⟨a1, a2⟩ := h i
  have step : s.m_blink.nextToggle i ≠ 0 ∧ s.m_blink.nextToggle i < now →
      (refresh s now).1.m_blink.isOn i = (if s.m_blink.isOn i ≠ 0 then 0 else 1) ∧
      (refresh s now).1.m_blink.nextToggle i =
        (if s.m_blink.isOn i ≠ 0 then (s.m_blink.off i + now) % 2 ^ 32
         else (s.m_blink.on_ i + now) % 2 ^ 32) := by
    intro hc
    have hc2 : i < s.m_segmentSize ∧ s.m_blink.nextToggle i ≠ 0 ∧
        s.m_blink.nextToggle i < now := ⟨hi, hc⟩
    constructor
    · rw [a1, if_pos hc2]
    · rw [a2, if_pos hc2]
  refine ⟨fun hc => ?_, fun hc => ?_, fun hon hoff => ⟨fun T hv hT hlt => ?_, fun U hv hU hlt => ?_⟩⟩
  · obtain ⟨b1, b2⟩ := step hc
    refine ⟨b1, ?_⟩
    rw [b2, b1]
    by_cases hv : s.m_blink.isOn i ≠ 0
    · simp [hv]
    · simp [hv]
  · have hc2 : ¬ (i < s.m_segmentSize ∧ s.m_blink.nextToggle i ≠ 0 ∧
        s.m_blink.nextToggle i < now) := fun h => hc h.2
    constructor
    · rw [a1, if_neg hc2]
    · rw [a2, if_neg hc2]
  · obtain ⟨b1, b2⟩ := step ⟨by omega, by omega⟩
    rw [b1, b2, if_pos hv, if_pos hv, hoff]
    exact ⟨rfl, rfl⟩
  · obtain ⟨b1, b2⟩ := step ⟨by omega, by omega⟩
    have hv0 : ¬ s.m_blink.isOn i ≠ 0 := fun h => h hv
    rw [b1, b2, if_neg hv0, if_neg hv0, hon]
    exact ⟨rfl, rfl⟩

/-- Digit 0 of the blinking Example 1, refreshed at 150: it becomes visible and its
next deadline is 650. -/
theorem refresh_blink_step_witness :
    (refresh blinkingFirst 150).1.m_blink.isOn 0 = 1 ∧
    (refresh blinkingFirst 150).1.m_blink.nextToggle 0 = 650 :=
  ⟨(((refresh_blink_step blinkingFirst 150 0 (by decide) (by decide)).1
      (by decide)).1).trans (by decide),
   (((refresh_blink_step blinkingFirst 150 0 (by decide) (by decide)).1
      (by decide)).2).trans (by decide)⟩

/-- C16 as stated fails.  On Example 1, `setBlink(0x80, 500, 200)` reads the clock at
100; the first refresh, at clock reading 150, makes digit 0 visible and transmits
`0xFC80`, the pattern of the letter O, not a blank word. -/
theorem first_refresh_shows_digit :
    (refresh blinkingFirst 150).1.m_blink.isOn 0 = 1 ∧
    (transfers (refresh blinkingFirst 150).2)[0]? = some 0xFC80 ∧
    (transfers (refresh blinkingFirst 150).2)[0]? ≠ some 0x0080 := by
  decide

/-- C16 amended: for every state with segment count in `1..8`, after `setBlink` with
a mask selecting digit 0 (on = 500, off = 200) that read the clock at `t`, the first
refresh that follows, at clock reading `now`, transmits the blank word `0x0080` for
digit 0 and leaves the digit invisible when `now = t` or `t = 0`; when `t ≠ 0` and
`now > t` it makes digit 0 visible at once and transmits the visible word
`((asciiTo7seg(cell[0]) | decimal bit) << 8) | 0x80`. -/
theorem first_refresh_after_setBlink (s : State) (digit t now : Nat)
    (hn : 1 ≤ s.m_segmentSize) (_hn8 : s.m_segmentSize ≤ 8) (hd : (0x80 &&& digit) ≠ 0) :
    ((now = t ∨ t = 0) →
      (refresh (setBlink s digit 500 200 t) now).1.m_blink.isOn 0 = 0 ∧
      (transfers (refresh (setBlink s digit 500 200 t) now).2)[0]? = some 0x0080) ∧
    (t ≠ 0 → t < now →
      (refresh (setBlink s digit 500 200 t) now).1.m_blink.isOn 0 = 1 ∧
      (transfers (refresh (setBlink s digit 500 200 t) now).2)[0]? = some
        (((asciiTo7seg s.m_ascii_table
            ((refresh (setBlink s digit 500 200 t) now).1.m_disp.upLo 0) |||
          (if (s.m_dps &&& 0x80) ≠ 0 then 1 else 0)) <<< 8) ||| 0x80)) := by
  obtain ⟨-, h2⟩ := setBlink_apply s digit 500 200 t
  obtain ⟨-, -, a3, a4⟩ := h2 0
  have hsel : 0 < 8 ∧ ((0x80 >>> 0) &&& digit) ≠ 0 := ⟨by decide, hd⟩
  rw [if_pos hsel] at a3 a4
  obtain ⟨-, hseg, -, htab, -, -, hdps⟩ := setBlink_frame s digit 500 200 t
  have hw := refresh_transfers_get (setBlink s digit 500 200 t) now 0 (by rw [hseg]; omega)
  rw [htab, hdps] at hw
  obtain ⟨-, -, hb⟩ := refresh_blink (setBlink s digit 500 200 t) now
  obtain ⟨b1, -⟩ := hb 0
  rw [a3, a4, hseg] at b1
  constructor
  · intro hc
    have hnot : ¬ (0 < s.m_segmentSize ∧ t ≠ 0 ∧ t < now) := by
      rintro ⟨-, c1, c2⟩
      rcases hc with hc | hc
      · omega
      · exact c1 hc
    rw [if_neg hnot] at b1
    refine ⟨b1, ?_⟩
    rw [hw, b1]
    rfl
  · intro ht hlt
    rw [if_pos ⟨by omega, ht, hlt⟩] at b1
    have b1' : (refresh (setBlink s digit 500 200 t) now).1.m_blink.isOn 0 = 1 := b1
    refine ⟨b1', ?_⟩
    rw [hw, b1']
    rfl

/-- Example 1 with blink enabled at 100: a refresh at 100 sends the blank word for
digit 0, a refresh at 150 sends the pattern of the letter O. -/
theorem first_refresh_after_setBlink_witness :
    (transfers (refresh (setBlink (example1 zeroStorage) 0x80 500 200 100) 100).2)[0]?
      = some 0x0080 ∧
    (transfers (refresh (setBlink (example1 zeroStorage) 0x80 500 200 100) 150).2)[0]?
      = some 0xFC80 :=
  ⟨((first_refresh_after_setBlink (example1 zeroStorage) 0x80 100 100
      (by decide) (by decide) (by decide)).1 (Or.inl rfl)).2,
   (((first_refresh_after_setBlink (example1 zeroStorage) 0x80 100 150
      (by decide) (by decide) (by decide)).2 (by decide) (by decide)).2).trans (by decide)⟩

/-- C17 as stated fails for a segment count above 8, which `setSegmentsArraySize`
accepts.  On the ten-digit display after `writeOneSegment(9, O)`, `stopBlink` resets
the slots `0..7` only; the refresh that follows sends for digit 8 the blank word `0`,
while the visible word built from cell 8, the letter O, is `0xFC00`.  Every clock
reading of the run is 0, so no deadline lies below the clock and no refresh stores
into a blink slot; the slot `isOn[8]` that decides digit 8 is the first byte after
the array, which is 0 here as in the object, where it is a byte of the null pointer
`m_blink.next`. -/
theorem stopBlink_ninth_digit_blank :
    (stopBlink ninthWritten).m_segmentSize = 10 ∧
    (refresh (stopBlink ninthWritten) 0).1.m_disp.upLo 8 = 0x4F ∧
    (transfers (refresh (stopBlink ninthWritten) 0).2)[8]? = some 0 ∧
    ((asciiTo7seg (stopBlink ninthWritten).m_ascii_table
        ((refresh (stopBlink ninthWritten) 0).1.m_disp.upLo 8) |||
      (if ((stopBlink ninthWritten).m_dps &&& (0x80 >>> 8)) ≠ 0 then 1 else 0)) <<< 8) |||
      (0x80 >>> 8) = 0xFC00 := by
  decide

/-- C17 amended: `stopBlink` sets `nextToggle = 0` and `isOn = 1` for the digits `0..7`
whatever the segment count and changes nothing else; consequently, when the segment
count is at most 8 at the call of `stopBlink` and no later call of
`setSegmentsArraySize` asks for more than 8 digits, after `stopBlink` and any sequence
of operations without `setBlink` the segment count is still at most 8 and a refresh
transmits for every digit `i` below the segment count the visible word
`((asciiTo7seg(cell[i]) | decimal bit) << 8) | (0x80 >> i)` built from the buffer as
it stands at that refresh. -/
theorem stopBlink_then_refresh (s : State) (ops : List Op) (now i : Nat) :
    (∀ j, j < 8 → (stopBlink s).m_blink.nextToggle j = 0 ∧ (stopBlink s).m_blink.isOn j = 1) ∧
    (∀ j, 8 ≤ j → (stopBlink s).m_blink.nextToggle j = s.m_blink.nextToggle j ∧
      (stopBlink s).m_blink.isOn j = s.m_blink.isOn j) ∧
    (stopBlink s).m_blink.on_ = s.m_blink.on_ ∧
    (stopBlink s).m_blink.off = s.m_blink.off ∧
    { stopBlink s with m_blink := s.m_blink } = s ∧
    (s.m_segmentSize ≤ 8 →
      (∀ size, Op.setSegmentsArraySize size ∈ ops → size ≤ 8) →
      (∀ op, op ∈ ops → op.isSetBlink = false) →
      i < (run (stopBlink s) ops).m_segmentSize →
      (run (stopBlink s) ops).m_segmentSize ≤ 8 ∧
      (refresh (run (stopBlink s) ops) now).1.m_blink.isOn i = 1 ∧
      (transfers (refresh (run (stopBlink s) ops) now).2)[i]? = some
        (((asciiTo7seg (run (stopBlink s) ops).m_ascii_table
            ((refresh (run (stopBlink s) ops) now).1.m_disp.upLo i) |||
          (if ((run (stopBlink s) ops).m_dps &&& (0x80 >>> i)) ≠ 0 then 1 else 0)) <<< 8) |||
          (0x80 >>> i))) := by
  obtain ⟨f1, f2, f3, f4⟩ := stopBlink_apply s
  have hidle : ∀ j, j < 8 →
      (stopBlink s).m_blink.nextToggle j = 0 ∧ (stopBlink s).m_blink.isOn j = 1 := by
    intro j hj
    obtain ⟨b1, b2⟩ := f4 j
    rw [if_pos hj] at b1 b2
    exact ⟨b1, b2⟩
  refine ⟨hidle, fun j hj => ?_, f2, f3, f1, fun hs hsz hops hi => ?_⟩
  · obtain ⟨b1, b2⟩ := f4 j
    rw [if_neg (by omega)] at b1 b2
    exact ⟨b1, b2⟩
  · have hs2 : (stopBlink s).m_segmentSize ≤ 8 := by
      rw [(stopBlink_frame s).2.1]
      exact hs
    have hn := run_segmentSize_le ops (stopBlink s) hsz hs2
    have hrun := run_keeps_idle ops (stopBlink s) hops hidle i (by omega)
    obtain ⟨-, k2⟩ := refresh_keeps_idle (run (stopBlink s) ops) now i hrun.1
    have hon : (refresh (run (stopBlink s) ops) now).1.m_blink.isOn i = 1 := k2.trans hrun.2
    refine ⟨hn, hon, ?_⟩
    rw [refresh_transfers_get _ now i hi, hon]
    rfl

/-- The blinking Example 1 after `stopBlink`, a write to the lower row and a refresh
at 150: the following refresh sends the pattern of the letter O for digit 0. -/
theorem stopBlink_then_refresh_witness :
    (transfers (refresh (run (stopBlink blinkingFirst)
        [Op.writeLower [0x31, 0x32, 0x33, 0x34], Op.refresh 150]) 900).2)[0]? = some 0xFC80 :=
  ((stopBlink_then_refresh blinkingFirst
    [Op.writeLower [0x31, 0x32, 0x33, 0x34], Op.refresh 150] 900 0).2.2.2.2.2
    (by decide) (by simp) (by decide) (by decide)).2.2.trans (by decide)

/-- C18: for every text of 1 to 255 characters, delay `t` and direction flag,
`scrollUpperEx` sets the cells 0..3 to spaces, leaves every other cell and the lower
scroll record unchanged, and stores in the upper scroll record the text, `delay = t`,
`time` = the current clock reading, the direction, and `marker = 0` when `left != 0`
or `marker = text.length - 1` when `left == 0`; `scrollLowerEx` does the same with the
cells 4..7 and the lower scroll record, leaving the upper ones unchanged. -/
theorem scrollEx_contract (s : State) (str : List Int) (t left now : Nat)
    (h1 : 1 ≤ str.length) (h255 : str.length ≤ 255) :
    ((∀ k, k < 4 → (scrollUpperEx s str t left now).m_disp.upLo k = 32) ∧
     (∀ j, 4 ≤ j → (scrollUpperEx s str t left now).m_disp.upLo j = s.m_disp.upLo j) ∧
     (scrollUpperEx s str t left now).m_scrollLower = s.m_scrollLower ∧
     (scrollUpperEx s str t left now).m_scrollUpper =
       { time := now, text := str, delay := t, toLeft := left,
         marker := if left ≠ 0 then 0 else str.length - 1 }) ∧
    ((∀ k, 4 ≤ k → k < 8 → (scrollLowerEx s str t left now).m_disp.upLo k = 32) ∧
     (∀ j, j < 4 ∨ 8 ≤ j → (scrollLowerEx s str t left now).m_disp.upLo j = s.m_disp.upLo j) ∧
     (scrollLowerEx s str t left now).m_scrollUpper = s.m_scrollUpper ∧
     (scrollLowerEx s str t left now).m_scrollLower =
       { time := now, text := str, delay := t, toLeft := left,
         marker := if left ≠ 0 then 0 else str.length - 1 }) := by
  have hmark : (str.length + (2 ^ 8 - 1)) % 2 ^ 8 = str.length - 1 := by omega
  have hrec : ∀ disp, (scrollHelper str s.m_disp.upLo disp t left now).1 =
      { time := now, text := str, delay := t, toLeft := left,
        marker := if left ≠ 0 then 0 else str.length - 1 } := by
    intro disp
    unfold scrollHelper
    dsimp only
    rw [hmark]
  refine ⟨⟨fun k hk => ?_, fun j hj => ?_, rfl, hrec upper⟩,
    ⟨fun k h4 h8 => ?_, fun j hj => ?_, rfl, hrec lower⟩⟩
  · show (scrollHelper str s.m_disp.upLo upper t left now).2 k = 32
    rw [scrollHelper_apply, if_pos (by simp [upper]; omega)]
  · show (scrollHelper str s.m_disp.upLo upper t left now).2 j = s.m_disp.upLo j
    rw [scrollHelper_apply, if_neg (by simp [upper]; omega)]
  · show (scrollHelper str s.m_disp.upLo lower t left now).2 k = 32
    rw [scrollHelper_apply, if_pos (by simp [lower]; omega)]
  · show (scrollHelper str s.m_disp.upLo lower t left now).2 j = s.m_disp.upLo j
    rw [scrollHelper_apply, if_neg (by simp [lower]; omega)]

/-- On Example 1: a right scroll of the text A B on the upper row blanks that row and
sets the marker to 1; a left scroll on the lower row keeps cell 0. -/
theorem scrollEx_contract_witness :
    (scrollUpperEx (example1 zeroStorage) [0x41, 0x42] 300 0 7).m_disp.upLo 2 = 32 ∧
    (scrollUpperEx (example1 zeroStorage) [0x41, 0x42] 300 0 7).m_scrollUpper.marker = 1 ∧
    (scrollLowerEx (example1 zeroStorage) [0x41, 0x42] 300 1 7).m_disp.upLo 0 = 0x4F :=
  ⟨(scrollEx_contract (example1 zeroStorage) [0x41, 0x42] 300 0 7
      (by decide) (by decide)).1.1 2 (by decide),
   (congrArg scroll_t.marker (scrollEx_contract (example1 zeroStorage) [0x41, 0x42] 300 0 7
      (by decide) (by decide)).1.2.2.2).trans (by decide),
   ((scrollEx_contract (example1 zeroStorage) [0x41, 0x42] 300 1 7
      (by decide) (by decide)).2.2.1 0 (by decide)).trans (by decide)⟩

/-- C19 as stated fails.  The upper row of the scrolling Example 1 has last advance
time 0 and delay 100; a refresh at clock reading 100, when the elapsed time equals the
delay, leaves the row, the marker and the advance time as they are.  A refresh at 101
shifts the row by one position. -/
theorem scroll_not_shifted_at_delay :
    scrollingUpper.m_scrollUpper.time = 0 ∧
    scrollingUpper.m_scrollUpper.delay = 100 ∧
    (List.range 4).map scrollingUpper.m_disp.upLo = [0x20, 0x20, 0x20, 0x20] ∧
    (refresh scrollingUpper 100).1.m_scrollUpper.time = 0 ∧
    (refresh scrollingUpper 100).1.m_scrollUpper.marker = 0 ∧
    (List.range 4).map (refresh scrollingUpper 100).1.m_disp.upLo = [0x20, 0x20, 0x20, 0x20] ∧
    (refresh scrollingUpper 101).1.m_scrollUpper.time = 101 ∧
    (refresh scrollingUpper 101).1.m_scrollUpper.marker = 1 ∧
    (List.range 4).map (refresh scrollingUpper 101).1.m_disp.upLo
      = [0x20, 0x20, 0x20, 0x41] := by
  decide

/-- C19 amended: during a refresh at clock reading `now`, a row whose scroll is active
(`delay != 0`) is shifted exactly when its `time + delay`, reduced modulo `2 ^ 32`, is
strictly below `now` (with no wrap-around: when more than `delay` has elapsed since
the last advance); it is then shifted by exactly one position, the marker moves by
one, and `time` becomes `now`; otherwise the cells of the row, the marker and `time`
are unchanged.  The first half of the statement is the upper row, the second the
lower row. -/
theorem refresh_scroll_trigger (s : State) (now : Nat) :
    (s.m_scrollUpper.delay ≠ 0 →
      ((s.m_scrollUpper.time + s.m_scrollUpper.delay) % 2 ^ 32 < now →
        (refresh s now).1.m_scrollUpper =
          { s.m_scrollUpper with
            time := now
            marker :=
              if s.m_scrollUpper.toLeft ≠ 0 then
                (if s.m_scrollUpper.text.length = s.m_scrollUpper.marker + 1 then 0
                 else (s.m_scrollUpper.marker + 1) % 2 ^ 8)
              else
                (if s.m_scrollUpper.marker = 0 then
                  (s.m_scrollUpper.text.length + (2 ^ 8 - 1)) % 2 ^ 8
                 else s.m_scrollUpper.marker - 1) } ∧
        (List.range 4).map (fun k => (refresh s now).1.m_disp.upLo k) =
          (if s.m_scrollUpper.toLeft ≠ 0 then
            [s.m_disp.upLo 1, s.m_disp.upLo 2, s.m_disp.upLo 3,
              charAt s.m_scrollUpper.text s.m_scrollUpper.marker]
           else
            [charAt s.m_scrollUpper.text s.m_scrollUpper.marker,
              s.m_disp.upLo 0, s.m_disp.upLo 1, s.m_disp.upLo 2])) ∧
      (¬ ((s.m_scrollUpper.time + s.m_scrollUpper.delay) % 2 ^ 32 < now) →
        (refresh s now).1.m_scrollUpper = s.m_scrollUpper ∧
        ∀ k, k < 4 → (refresh s now).1.m_disp.upLo k = s.m_disp.upLo k) ∧
      (s.m_scrollUpper.time + s.m_scrollUpper.delay < 2 ^ 32 → s.m_scrollUpper.time ≤ now →
        ((s.m_scrollUpper.time + s.m_scrollUpper.delay) % 2 ^ 32 < now ↔
          s.m_scrollUpper.delay < now - s.m_scrollUpper.time))) ∧
    (s.m_scrollLower.delay ≠ 0 →
      ((s.m_scrollLower.time + s.m_scrollLower.delay) % 2 ^ 32 < now →
        (refresh s now).1.m_scrollLower =
          { s.m_scrollLower with
            time := now
            marker :=
              if s.m_scrollLower.toLeft ≠ 0 then
                (if s.m_scrollLower.text.length = s.m_scrollLower.marker + 1 then 0
                 else (s.m_scrollLower.marker + 1) % 2 ^ 8)
              else
                (if s.m_scrollLower.marker = 0 then
                  (s.m_scrollLower.text.length + (2 ^ 8 - 1)) % 2 ^ 8
                 else s.m_scrollLower.marker - 1) } ∧
        (List.range 4).map (fun k => (refresh s now).1.m_disp.upLo (4 + k)) =
          (if s.m_scrollLower.toLeft ≠ 0 then
            [s.m_disp.upLo 5, s.m_disp.upLo 6, s.m_disp.upLo 7,
              charAt s.m_scrollLower.text s.m_scrollLower.marker]
           else
            [charAt s.m_scrollLower.text s.m_scrollLower.marker,
              s.m_disp.upLo 4, s.m_disp.upLo 5, s.m_disp.upLo 6])) ∧
      (¬ ((s.m_scrollLower.time + s.m_scrollLower.delay) % 2 ^ 32 < now) →
        (refresh s now).1.m_scrollLower = s.m_scrollLower ∧
        ∀ k, 4 ≤ k → k < 8 → (refresh s now).1.m_disp.upLo k = s.m_disp.upLo k) ∧
      (s.m_scrollLower.time + s.m_scrollLower.delay < 2 ^ 32 → s.m_scrollLower.time ≤ now →
        ((s.m_scrollLower.time + s.m_scrollLower.delay) % 2 ^ 32 < now ↔
          s.m_scrollLower.delay < now - s.m_scrollLower.time))) := by
  have e4 : List.range 4 = [0, 1, 2, 3] := rfl
  constructor
  · intro hact
    obtain ⟨u1, u2⟩ := refresh_scroll_upper s now
    rw [if_pos hact] at u1
    obtain ⟨t1, t2⟩ := helperScroll_trigger s.m_scrollUpper s.m_disp.upLo upper now
    refine ⟨fun hd => ⟨?_, ?_⟩, fun hd => ⟨?_, fun k hk => ?_⟩, fun hw hle => ?_⟩
    · rw [u1]
      exact (t1 hd).1
    · have h := (t1 hd).2
      rw [e4] at h ⊢
      simp only [List.map_cons, List.map_nil] at h ⊢
      rw [u2 0 (by omega), u2 1 (by omega), u2 2 (by omega), u2 3 (by omega)]
      simpa [upper, hact] using h
    · rw [u1, t2 hd]
    · rw [u2 k hk, if_pos hact, t2 hd]
    · rw [Nat.mod_eq_of_lt hw]
      omega
  · intro hact
    obtain ⟨u1, u2⟩ := refresh_scroll_lower s now
    rw [if_pos hact] at u1
    obtain ⟨t1, t2⟩ := helperScroll_trigger s.m_scrollLower s.m_disp.upLo lower now
    refine ⟨fun hd => ⟨?_, ?_⟩, fun hd => ⟨?_, fun k h4 h8 => ?_⟩, fun hw hle => ?_⟩
    · rw [u1]
      exact (t1 hd).1
    · have h := (t1 hd).2
      rw [e4] at h ⊢
      simp only [List.map_cons, List.map_nil] at h ⊢
      rw [u2 (4 + 0) (by omega) (by omega), u2 (4 + 1) (by omega) (by omega),
        u2 (4 + 2) (by omega) (by omega), u2 (4 + 3) (by omega) (by omega)]
      simpa [lower, hact] using h
    · rw [u1, t2 hd]
    · rw [u2 k h4 h8, if_pos hact, t2 hd]
    · rw [Nat.mod_eq_of_lt hw]
      omega

/-- The scrolling Example 1 refreshed at 101: the upper row is shifted left by one,
the letter A enters at cell 3, the marker is 1 and the advance time is 101. -/
theorem refresh_scroll_trigger_witness :
    (refresh scrollingUpper 101).1.m_scrollUpper.marker = 1 ∧
    (refresh scrollingUpper 101).1.m_scrollUpper.time = 101 ∧
    (List.range 4).map (fun k => (refresh scrollingUpper 101).1.m_disp.upLo k)
      = [0x20, 0x20, 0x20, 0x41] :=
  ⟨(congrArg scroll_t.marker
      (((refresh_scroll_trigger scrollingUpper 101).1 (by decide)).1 (by decide)).1).trans
      (by decide),
   (congrArg scroll_t.time
      (((refresh_scroll_trigger scrollingUpper 101).1 (by decide)).1 (by decide)).1).trans
      (by decide),
   ((((refresh_scroll_trigger scrollingUpper 101).1 (by decide)).1 (by decide)).2).trans
      (by decide)⟩

/-- C20 as stated fails for a text longer than 256 characters.  A left scroll of 300
letters started on Example 1 reaches marker 255 after 255 advancing refreshes; 255 is
a valid index and not the last one, yet the next advance sets the marker to 0, not
to 256: the marker is an 8-bit counter.  The same on the scroll record alone. -/
theorem left_scroll_marker_wraps :
    (run scrollingLong (advances 255)).m_scrollUpper.text.length = 300 ∧
    (run scrollingLong (advances 255)).m_scrollUpper.marker = 255 ∧
    (refresh (run scrollingLong (advances 255)) 25856).1.m_scrollUpper.marker = 0 ∧
    (helperScroll longScroll scrollingLong.m_disp.upLo upper 200).1.marker = 0 := by
  have h := scrollingLong_marker 255 (le_refl _)
  have hlen : (List.replicate 300 (0x41 : Int)).length = 300 := List.length_replicate _ _
  have hup := (refresh_scroll_upper (run scrollingLong (advances 255)) 25856).1
  rw [h] at hup
  refine ⟨?_, ?_, ?_, ?_⟩
  · rw [h]
    exact hlen
  · rw [h]
  · rw [hup, if_pos (show (100 : Nat) ≠ 0 by decide), helperScroll_fst]
    dsimp only
    rw [if_pos (by decide), if_pos (show (1 : Nat) ≠ 0 by decide), hlen, if_neg (by decide)]
    rfl
  · rw [helperScroll_fst]
    unfold longScroll
    dsimp only
    rw [if_pos (by decide), if_pos (show (1 : Nat) ≠ 0 by decide), hlen, if_neg (by decide)]
    rfl

/-- C20 amended: whenever a left scroll with a marker `m` that is a valid index of its
text advances, the cells `[a, b, c, d]` of its row become `[b, c, d, text[m]]`, the
marker becomes 0 when `m` was the last index of the text and otherwise `m + 1` reduced
modulo 256, which is `m + 1` for every text of at most 256 characters, and every cell
outside the row, the four cells of the other row among them, is unchanged. -/
theorem left_scroll_step (sc : scroll_t) (m : Nat → Int) (disp now : Nat)
    (hd : (sc.time + sc.delay) % 2 ^ 32 < now) (hl : sc.toLeft ≠ 0)
    (hm : sc.marker < sc.text.length) :
    (List.range 4).map (fun k => (helperScroll sc m disp now).2 (disp + k)) =
      [m (disp + 1), m (disp + 2), m (disp + 3), charAt sc.text sc.marker] ∧
    sc.text[sc.marker]? = some (charAt sc.text sc.marker) ∧
    (helperScroll sc m disp now).1.marker =
      (if sc.marker + 1 = sc.text.length then 0 else (sc.marker + 1) % 2 ^ 8) ∧
    (sc.text.length ≤ 256 →
      (helperScroll sc m disp now).1.marker =
        (if sc.marker + 1 = sc.text.length then 0 else sc.marker + 1)) ∧
    (∀ j, ¬ (disp ≤ j ∧ j < disp + 4) → (helperScroll sc m disp now).2 j = m j) := by
  obtain ⟨t1, -⟩ := helperScroll_trigger sc m disp now
  obtain ⟨r1, r2⟩ := t1 hd
  rw [if_pos hl] at r2
  have hmark : (helperScroll sc m disp now).1.marker =
      (if sc.marker + 1 = sc.text.length then 0 else (sc.marker + 1) % 2 ^ 8) := by
    rw [r1]
    dsimp only
    rw [if_pos hl]
    by_cases he : sc.text.length = sc.marker + 1
    · rw [if_pos he, if_pos he.symm]
    · rw [if_neg he, if_neg (fun h => he h.symm)]
  refine ⟨r2, ?_, hmark, fun hlen => ?_, fun j hj => helperScroll_outside sc m disp now j hj⟩
  · unfold charAt
    simp [List.getD_eq_getElem?_getD, List.getElem?_eq_getElem hm]
  · rw [hmark]
    by_cases he : sc.marker + 1 = sc.text.length
    · rw [if_pos he, if_pos he]
    · rw [if_neg he, if_neg he, Nat.mod_eq_of_lt (by omega)]

/-- The scroll record of the scrolling Example 1 advancing at 101 on a row that reads
O c t o: the row becomes c t o A and the marker 1. -/
theorem left_scroll_step_witness :
    (List.range 4).map (fun k =>
      (helperScroll scrollingUpper.m_scrollUpper (example1 zeroStorage).m_disp.upLo
        upper 101).2 (upper + k)) = [0x63, 0x74, 0x6F, 0x41] ∧
    (helperScroll scrollingUpper.m_scrollUpper (example1 zeroStorage).m_disp.upLo
      upper 101).1.marker = 1 :=
  ⟨(left_scroll_step scrollingUpper.m_scrollUpper (example1 zeroStorage).m_disp.upLo
      upper 101 (by decide) (by decide) (by decide)).1.trans (by decide),
   (left_scroll_step scrollingUpper.m_scrollUpper (example1 zeroStorage).m_disp.upLo
      upper 101 (by decide) (by decide) (by decide)).2.2.1.trans (by decide)⟩

/-- C21 as stated fails for a text longer than 256 characters.  A right scroll of 257
letters started on Example 1 has its marker at 0, a valid index; the refresh at 101
advances the scroll (the step time becomes 101) and sets the marker to 0, not to
`text.length - 1 = 256`: the marker is an 8-bit counter. -/
theorem right_scroll_marker_wraps :
    scrollingRight.m_scrollUpper.text.length = 257 ∧
    scrollingRight.m_scrollUpper.toLeft = 0 ∧
    scrollingRight.m_scrollUpper.marker = 0 ∧
    (refresh scrollingRight 101).1.m_scrollUpper.time = 101 ∧
    (refresh scrollingRight 101).1.m_scrollUpper.marker = 0 := by
  have hlen : (List.replicate 257 (0x41 : Int)).length = 257 := List.length_replicate _ _
  have h : scrollingRight.m_scrollUpper =
      { time := 0, text := List.replicate 257 0x41, delay := 100, toLeft := 0,
        marker := 0 } := by
    show ({ text := List.replicate 257 0x41, delay := 100, time := 0, toLeft := 0,
            marker := if (0 : Nat) ≠ 0 then 0
              else ((List.replicate 257 (0x41 : Int)).length + (2 ^ 8 - 1)) % 2 ^ 8 } :
          scroll_t) = _
    rw [hlen]
    rfl
  have hup := (refresh_scroll_upper scrollingRight 101).1
  rw [h] at hup
  rw [if_pos (show (100 : Nat) ≠ 0 by decide), helperScroll_fst] at hup
  dsimp only at hup
  rw [if_pos (by decide), if_neg (by decide), if_pos rfl, hlen] at hup
  refine ⟨?_, ?_, ?_, ?_, ?_⟩
  · rw [h]
    exact hlen
  · rw [h]
  · rw [h]
  · rw [hup]
  · rw [hup]
    rfl

/-- C21 amended: whenever a right scroll with a marker `m` that is a valid index of
its text advances, the cells `[a, b, c, d]` of its row become `[text[m], a, b, c]`,
the marker becomes `m - 1` when `m` was not 0 and otherwise `text.length - 1` reduced
modulo 256, which is `text.length - 1` for every text of at most 256 characters, and
every cell outside the row, the four cells of the other row among them, is
unchanged. -/
theorem right_scroll_step (sc : scroll_t) (m : Nat → Int) (disp now : Nat)
    (hd : (sc.time + sc.delay) % 2 ^ 32 < now) (hl : sc.toLeft = 0)
    (hm : sc.marker < sc.text.length) :
    (List.range 4).map (fun k => (helperScroll sc m disp now).2 (disp + k)) =
      [charAt sc.text sc.marker, m disp, m (disp + 1), m (disp + 2)] ∧
    sc.text[sc.marker]? = some (charAt sc.text sc.marker) ∧
    (helperScroll sc m disp now).1.marker =
      (if sc.marker = 0 then (sc.text.length - 1) % 2 ^ 8 else sc.marker - 1) ∧
    (sc.text.length ≤ 256 →
      (helperScroll sc m disp now).1.marker =
        (if sc.marker = 0 then sc.text.length - 1 else sc.marker - 1)) ∧
    (∀ j, ¬ (disp ≤ j ∧ j < disp + 4) → (helperScroll sc m disp now).2 j = m j) := by
  obtain ⟨t1, -⟩ := helperScroll_trigger sc m disp now
  obtain ⟨r1, r2⟩ := t1 hd
  have hl2 : ¬ sc.toLeft ≠ 0 := fun h => h hl
  rw [if_neg hl2] at r2
  have hmark : (helperScroll sc m disp now).1.marker =
      (if sc.marker = 0 then (sc.text.length - 1) % 2 ^ 8 else sc.marker - 1) := by
    rw [r1]
    dsimp only
    rw [if_neg hl2]
    by_cases he : sc.marker = 0
    · rw [if_pos he, if_pos he]
      omega
    · rw [if_neg he, if_neg he]
  refine ⟨r2, ?_, hmark, fun hlen => ?_, fun j hj => helperScroll_outside sc m disp now j hj⟩
  · unfold charAt
    simp [List.getD_eq_getElem?_getD, List.getElem?_eq_getElem hm]
  · rw [hmark]
    by_cases he : sc.marker = 0
    · rw [if_pos he, if_pos he, Nat.mod_eq_of_lt (by omega)]
    · rw [if_neg he, if_neg he]

/-- A right scroll of the text A B with marker 1 advancing at 101 on the upper row of
Example 1, which reads O c t o: the row becomes B O c t and the marker 0. -/
theorem right_scroll_step_witness :
    (List.range 4).map (fun k =>
      (helperScroll { time := 0, text := [0x41, 0x42], delay := 100, toLeft := 0, marker := 1 }
        (example1 zeroStorage).m_disp.upLo upper 101).2 (upper + k))
      = [0x42, 0x4F, 0x63, 0x74] ∧
    (helperScroll { time := 0, text := [0x41, 0x42], delay := 100, toLeft := 0, marker := 1 }
      (example1 zeroStorage).m_disp.upLo upper 101).1.marker = 0 :=
  ⟨(right_scroll_step { time := 0, text := [0x41, 0x42], delay := 100, toLeft := 0, marker := 1 }
      (example1 zeroStorage).m_disp.upLo upper 101 (by decide) rfl (by decide)).1.trans
      (by decide),
   (right_scroll_step { time := 0, text := [0x41, 0x42], delay := 100, toLeft := 0, marker := 1 }
      (example1 zeroStorage).m_disp.upLo upper 101 (by decide) rfl (by decide)).2.2.1.trans
      (by decide)⟩

/-- C22 as stated fails for a text longer than 256 characters.  A left scroll of 300
letters started on Example 1 with delay 100 is advanced by each of the refreshes at
101, 202, ...: after 255 of them the marker is 255 and the last step was taken at
`101 * 255`.  After 256 of them the marker is 0, not `256 mod 300 = 256`: the marker
is an 8-bit counter. -/
theorem left_scroll_long_text_marker :
    (run scrollingLong (advances 255)).m_scrollUpper.marker = 255 ∧
    (run scrollingLong (advances 255)).m_scrollUpper.time = 101 * 255 ∧
    (run scrollingLong (advances 256)).m_scrollUpper.time = 101 * 256 ∧
    (run scrollingLong (advances 256)).m_scrollUpper.text.length = 300 ∧
    (run scrollingLong (advances 256)).m_scrollUpper.marker = 0 ∧
    (advances 256).length % (run scrollingLong (advances 256)).m_scrollUpper.text.length
      = 256 := by
  have h := scrollingLong_marker 255 (le_refl _)
  have h2 := scrollingLong_wrapped
  have hlen : (List.replicate 300 (0x41 : Int)).length = 300 := List.length_replicate _ _
  have hadv : (advances 256).length = 256 := by
    unfold advances
    rw [List.length_map, List.length_range]
  refine ⟨?_, ?_, ?_, ?_, ?_, ?_⟩
  · rw [h]
  · rw [h]
  · rw [h2]
  · rw [h2]
    exact hlen
  · rw [h2]
  · rw [h2, hadv]
    dsimp only
    rw [hlen]

/-- C22 amended: for every non-empty text of length `L`, with `P = L` when the text has
at most 256 characters and `P = 256` when it is longer (`P = min L 256`): after a left
scroll is started on a row with a delay other than 0 and `n` refreshes have each
advanced it (each at a clock reading greater than the time of the step before plus the
delay, modulo `2 ^ 32`), the marker equals `n mod P` and cell `j` (`j = 0..3`) of the
row holds `text[(n - 4 + j) mod P]` when `n - 4 + j ≥ 0` and a space otherwise.  The
same for the upper and the lower row. -/
theorem left_scroll_run (s : State) (text : List Int) (delay left now0 : Nat)
    (ts : List Nat) (hL : text ≠ []) (hleft : left ≠ 0) (hadv : advancing delay now0 ts) :
    ((run (scrollUpperEx s text delay left now0) (ts.map Op.refresh)).m_scrollUpper.marker
        = ts.length % min text.length 256 ∧
      ∀ j, j < 4 →
        (run (scrollUpperEx s text delay left now0) (ts.map Op.refresh)).m_disp.upLo
            (upper + j) =
          if 4 ≤ ts.length + j then charAt text ((ts.length + j - 4) % min text.length 256)
          else 32) ∧
    ((run (scrollLowerEx s text delay left now0) (ts.map Op.refresh)).m_scrollLower.marker
        = ts.length % min text.length 256 ∧
      ∀ j, j < 4 →
        (run (scrollLowerEx s text delay left now0) (ts.map Op.refresh)).m_disp.upLo
            (lower + j) =
          if 4 ≤ ts.length + j then charAt text ((ts.length + j - 4) % min text.length 256)
          else 32) ∧
    (text.length ≤ 256 → min text.length 256 = text.length) := by
  have hpos : 0 < text.length := List.length_pos.mpr hL
  have h0 : 0 % min text.length 256 = 0 := Nat.zero_mod _
  refine ⟨?_, ?_, fun h => by omega⟩
  · have hrec : (scrollUpperEx s text delay left now0).m_scrollUpper =
        { time := now0, text := text, delay := delay, toLeft := left,
          marker := 0 % min text.length 256 } := by
      rw [h0]
      show (scrollHelper text s.m_disp.upLo upper delay left now0).1 = _
      unfold scrollHelper
      dsimp only
      rw [if_pos hleft]
    have hcells : ∀ j, j < 4 → (scrollUpperEx s text delay left now0).m_disp.upLo (upper + j) =
        if 4 ≤ 0 + j then charAt text ((0 + j - 4) % min text.length 256) else 32 := by
      intro j hj
      show (scrollHelper text s.m_disp.upLo upper delay left now0).2 (upper + j) = _
      rw [scrollHelper_apply, if_pos (by omega), if_neg (by omega)]
    have r := left_scroll_run_upper text delay left hL hleft ts _ 0 now0 hrec hcells hadv
    rw [Nat.zero_add] at r
    exact r
  · have hrec : (scrollLowerEx s text delay left now0).m_scrollLower =
        { time := now0, text := text, delay := delay, toLeft := left,
          marker := 0 % min text.length 256 } := by
      rw [h0]
      show (scrollHelper text s.m_disp.upLo lower delay left now0).1 = _
      unfold scrollHelper
      dsimp only
      rw [if_pos hleft]
    have hcells : ∀ j, j < 4 → (scrollLowerEx s text delay left now0).m_disp.upLo (lower + j) =
        if 4 ≤ 0 + j then charAt text ((0 + j - 4) % min text.length 256) else 32 := by
      intro j hj
      show (scrollHelper text s.m_disp.upLo lower delay left now0).2 (lower + j) = _
      rw [scrollHelper_apply, if_pos (by omega), if_neg (by omega)]
    have r := left_scroll_run_lower text delay left hL hleft ts _ 0 now0 hrec hcells hadv
    rw [Nat.zero_add] at r
    exact r

/-- The scenario of C22: a left scroll of the text A B C D started with delay 100 at
clock reading 0 on the upper row of Example 1.  After the advancing refresh at 101 the
row reads three spaces and A and the marker is 1; after the advancing refreshes at
101, 202, 303 and 404 the row reads A B C D and the marker is 0. -/
theorem left_scroll_run_witness :
    (advancing 100 0 [101] ∧ advancing 100 0 [101, 202, 303, 404]) ∧
    ((run (scrollUpperEx (example1 zeroStorage) ABCD 100 1 0)
        ([101].map Op.refresh)).m_scrollUpper.marker = 1 ∧
      (run (scrollUpperEx (example1 zeroStorage) ABCD 100 1 0)
        ([101].map Op.refresh)).m_disp.upLo (upper + 0) = 0x20 ∧
      (run (scrollUpperEx (example1 zeroStorage) ABCD 100 1 0)
        ([101].map Op.refresh)).m_disp.upLo (upper + 1) = 0x20 ∧
      (run (scrollUpperEx (example1 zeroStorage) ABCD 100 1 0)
        ([101].map Op.refresh)).m_disp.upLo (upper + 2) = 0x20 ∧
      (run (scrollUpperEx (example1 zeroStorage) ABCD 100 1 0)
        ([101].map Op.refresh)).m_disp.upLo (upper + 3) = 0x41) ∧
    ((run (scrollUpperEx (example1 zeroStorage) ABCD 100 1 0)
        ([101, 202, 303, 404].map Op.refresh)).m_scrollUpper.marker = 0 ∧
      (run (scrollUpperEx (example1 zeroStorage) ABCD 100 1 0)
        ([101, 202, 303, 404].map Op.refresh)).m_disp.upLo (upper + 0) = 0x41 ∧
      (run (scrollUpperEx (example1 zeroStorage) ABCD 100 1 0)
        ([101, 202, 303, 404].map Op.refresh)).m_disp.upLo (upper + 1) = 0x42 ∧
      (run (scrollUpperEx (example1 zeroStorage) ABCD 100 1 0)
        ([101, 202, 303, 404].map Op.refresh)).m_disp.upLo (upper + 2) = 0x43 ∧
      (run (scrollUpperEx (example1 zeroStorage) ABCD 100 1 0)
        ([101, 202, 303, 404].map Op.refresh)).m_disp.upLo (upper + 3) = 0x44) :=
  have a1 : advancing 100 0 [101] := ⟨by decide, by decide, trivial⟩
  have a4 : advancing 100 0 [101, 202, 303, 404] :=
    ⟨by decide, by decide, by decide, by decide, by decide, by decide, by decide, by decide,
      trivial⟩
  have r1 := (left_scroll_run (example1 zeroStorage) ABCD 100 1 0 [101]
    (by decide) (by decide) a1).1
  have r4 := (left_scroll_run (example1 zeroStorage) ABCD 100 1 0 [101, 202, 303, 404]
    (by decide) (by decide) a4).1
  ⟨⟨a1, a4⟩,
   ⟨r1.1.trans (by decide), (r1.2 0 (by decide)).trans (by decide),
    (r1.2 1 (by decide)).trans (by decide), (r1.2 2 (by decide)).trans (by decide),
    (r1.2 3 (by decide)).trans (by decide)⟩,
   ⟨r4.1.trans (by decide), (r4.2 0 (by decide)).trans (by decide),
    (r4.2 1 (by decide)).trans (by decide), (r4.2 2 (by decide)).trans (by decide),
    (r4.2 3 (by decide)).trans (by decide)⟩⟩

/-- C24, evaluated where the code departs from it.  After the calls of Example 1,
`setBlink(0x80, 500, 200)` reading the clock at 100, a refresh at 150 and a refresh at
`2 ^ 32 - 200`, digit 0 has `nextToggle = 0` and `isOn = 0`: the refresh at 150 shows
the digit with deadline 650, the refresh at `2 ^ 32 - 200` hides it and stores the
deadline `200 + (2 ^ 32 - 200)`, which is 0 in `unsigned long` arithmetic, the value
that stands for not blinking.  The digit stays hidden: a later refresh sends the blank
word `0x0080` for it, where Example 1 without the blink sends `0xFC80`, and leaves
`nextToggle = 0` and `isOn = 0`. -/
theorem blink_deadline_wraps_to_idle :
    (run (Seg7Display zeroStorage) (blinkWrapOps.take 5)).m_blink.nextToggle 0 = 650 ∧
    (run (Seg7Display zeroStorage) (blinkWrapOps.take 5)).m_blink.isOn 0 = 1 ∧
    (run (Seg7Display zeroStorage) blinkWrapOps).m_blink.nextToggle 0 = 0 ∧
    (run (Seg7Display zeroStorage) blinkWrapOps).m_blink.isOn 0 = 0 ∧
    (transfers (refresh (run (Seg7Display zeroStorage) blinkWrapOps) 4294967200).2)[0]?
      = some 0x0080 ∧
    (transfers (refresh (example1 zeroStorage) 4294967200).2)[0]? = some 0xFC80 ∧
    (refresh (run (Seg7Display zeroStorage) blinkWrapOps) 4294967200).1.m_blink.nextToggle 0
      = 0 ∧
    (refresh (run (Seg7Display zeroStorage) blinkWrapOps) 4294967200).1.m_blink.isOn 0
      = 0 := by
  decide

/-- C26: whatever the storage held before, a freshly constructed display has each of
the 8 buffer cells equal to the space character, each of the 8 digits not blinking and
visible (`nextToggle = 0`, `isOn = 1`), both scroll delays 0 and the decimal-point
mask 0; the segment count is 1.  None of these values depends on the storage the
object was constructed in. -/
theorem fresh_display (raw : State) :
    (∀ i, i < 8 →
      (Seg7Display raw).m_disp.upLo i = 32 ∧
      (Seg7Display raw).m_blink.nextToggle i = 0 ∧
      (Seg7Display raw).m_blink.isOn i = 1) ∧
    (Seg7Display raw).m_scrollUpper.delay = 0 ∧
    (Seg7Display raw).m_scrollLower.delay = 0 ∧
    (Seg7Display raw).m_dps = 0 ∧
    (Seg7Display raw).m_segmentSize = 1 := by
  refine ⟨fun i hi => ?_, rfl, rfl, rfl, rfl⟩
  interval_cases i <;> exact ⟨rfl, rfl, rfl⟩

/-- C27, evaluated where the code departs from it.  A text shorter than its region
makes the padding loop of `helperWrite` store a space one position past the region:
`writeUpper` of a text of fewer than 4 characters stores a space in cell 4, the first
cell of the lower row; `writeLower` of such a text and `writeSegments` of a text of
fewer than 8 characters store a space at offset 8, the position after the 8-cell
buffer.  On Example 1, whose cell 4 holds p, `writeUpper` of the text a b leaves a
space in cell 4, and `writeLower` of a b and `writeSegments` of the empty text leave
a space at offset 8, which held 0.  A text at least as long as the region is written
inside the region only. -/
theorem write_short_text_overruns :
    (∀ (s : State) (txt : List Int), txt.length < 4 →
      (writeUpper s txt).m_disp.upLo 4 = 32) ∧
    (∀ (s : State) (txt : List Int), txt.length < 4 →
      (writeLower s txt).m_disp.upLo 8 = 32) ∧
    (∀ (s : State) (txt : List Int), txt.length < 8 →
      (writeSegments s txt).m_disp.upLo 8 = 32) ∧
    ((example1 zeroStorage).m_disp.upLo 4 = 0x70 ∧
      (writeUpper (example1 zeroStorage) [0x61, 0x62]).m_disp.upLo 4 = 0x20) ∧
    ((example1 zeroStorage).m_disp.upLo 8 = 0 ∧
      (writeLower (example1 zeroStorage) [0x61, 0x62]).m_disp.upLo 8 = 0x20 ∧
      (writeSegments (example1 zeroStorage) []).m_disp.upLo 8 = 0x20) ∧
    (∀ (s : State) (txt : List Int) (j : Nat), 4 ≤ txt.length → 4 ≤ j →
      (writeUpper s txt).m_disp.upLo j = s.m_disp.upLo j) ∧
    (∀ (s : State) (txt : List Int) (j : Nat), 4 ≤ txt.length → (j < 4 ∨ 8 ≤ j) →
      (writeLower s txt).m_disp.upLo j = s.m_disp.upLo j) ∧
    (∀ (s : State) (txt : List Int) (j : Nat), 8 ≤ txt.length → 8 ≤ j →
      (writeSegments s txt).m_disp.upLo j = s.m_disp.upLo j) := by
  refine ⟨fun s txt h => ?_, fun s txt h => ?_, fun s txt h => ?_, by decide, by decide,
    fun s txt j h hj => ?_, fun s txt j h hj => ?_, fun s txt j h hj => ?_⟩
  · show helperWrite txt s.m_disp.upLo upper 4 4 = 32
    rw [helperWrite_apply]
    unfold upper
    rw [if_pos (by omega)]
  · show helperWrite txt s.m_disp.upLo lower 4 8 = 32
    rw [helperWrite_apply]
    unfold lower
    rw [if_pos (by omega)]
  · show helperWrite txt s.m_disp.upLo 0 8 8 = 32
    rw [helperWrite_apply]
    rw [if_pos (by omega)]
  · show helperWrite txt s.m_disp.upLo upper 4 j = _
    rw [helperWrite_apply]
    unfold upper
    rw [if_neg (by omega), if_neg (by omega)]
  · show helperWrite txt s.m_disp.upLo lower 4 j = _
    rw [helperWrite_apply]
    unfold lower
    rw [if_neg (by omega), if_neg (by omega)]
  · show helperWrite txt s.m_disp.upLo 0 8 j = _
    rw [helperWrite_apply]
    rw [if_neg (by omega), if_neg (by omega)]

/-- C28: for every glyph table whose first byte is at most its second byte and whose
length is the second byte minus the first plus 3, and every character `c`, every load
of `asciiTo7seg` lies inside its array: the bounds-checked lookup returns a value, the
value of the unchecked lookup; an index into the table, when the table branch is
taken, lies in `0 .. length - 1`, and an index into `SPECIAL_CHARS` lies in `0 .. 31`,
the 32 entries of that array. -/
theorem asciiTo7seg_reads_in_bounds (table : List Nat) (c : Int)
    (h1 : peek table 0 ≤ peek table 1)
    (h2 : table.length = peek table 1 - peek table 0 + 3) :
    asciiTo7segChecked table c = some (asciiTo7seg table c) ∧
    (c > (peek table 0 : Int) ∧ c ≤ (peek table 1 : Int) →
      0 ≤ c - ((peek table 0 : Int) - 2) ∧
      (c - ((peek table 0 : Int) - 2)).toNat < table.length) ∧
    (c ≥ 0 ∧ c < 32 → c.toNat < SPECIAL_CHARS.length) ∧
    SPECIAL_CHARS.length = 32 := by
  have hidx : c > (peek table 0 : Int) ∧ c ≤ (peek table 1 : Int) →
      0 ≤ c - ((peek table 0 : Int) - 2) ∧
      (c - ((peek table 0 : Int) - 2)).toNat < table.length := by
    intro h
    omega
  have hsp : c ≥ 0 ∧ c < 32 → c.toNat < SPECIAL_CHARS.length := by
    intro h
    have : SPECIAL_CHARS.length = 32 := rfl
    omega
  refine ⟨?_, hidx, hsp, rfl⟩
  have p0 : peekChecked table 0 = some (peek table 0) :=
    peekChecked_inside table 0 (le_refl _) (by simp only [Int.toNat_zero]; omega)
  have p1 : peekChecked table 1 = some (peek table 1) :=
    peekChecked_inside table 1 (by decide) (by simp only [Int.toNat_one]; omega)
  unfold asciiTo7segChecked asciiTo7seg
  rw [p0, p1]
  simp only [Option.bind_some, Option.some_bind]
  by_cases hin : c > (peek table 0 : Int) ∧ c ≤ (peek table 1 : Int)
  · rw [if_pos hin, if_pos hin]
    exact peekChecked_inside table _ (hidx hin).1 (hidx hin).2
  · rw [if_neg hin, if_neg hin]
    by_cases hs : c ≥ 0 ∧ c < 32
    · rw [if_pos hs, if_pos hs]
      exact peekChecked_inside SPECIAL_CHARS c hs.1 (hsp hs)
    · rw [if_neg hs, if_neg hs]

/-- The digit table and the character 5: the bounds-checked lookup reads the pattern
of 5 at index 7 of the 12 bytes. -/
theorem asciiTo7seg_reads_in_bounds_witness :
    peek ASCII_NUM_TAB 0 ≤ peek ASCII_NUM_TAB 1 ∧
    ASCII_NUM_TAB.length = peek ASCII_NUM_TAB 1 - peek ASCII_NUM_TAB 0 + 3 ∧
    asciiTo7segChecked ASCII_NUM_TAB 0x35 = some (asciiTo7seg ASCII_NUM_TAB 0x35) :=
  ⟨by decide, by decide,
   (asciiTo7seg_reads_in_bounds ASCII_NUM_TAB 0x35 (by decide) (by decide)).1⟩

end Seg7Display
